import Mathlib

/-!
Verification development for the shadow-codex ingestion core: a shallow
embedding of the incremental JSONL parser (`src/parser.ts`), the
extractor/classifier (`src/extractor.ts`), and the pure state-manipulating
kernels of the session store (`src/store.ts`).

Modelling conventions:
* File contents are modelled as `List Char` (one char per byte; UTF-8
  decoding is the identity on the ASCII inputs the claims exercise).
* `JSON.parse` (via `safeJsonParse`), `Date` normalisation (the date part
  of `toIso`) and `sha1Hex` are not reimplemented; they enter as explicit
  function parameters (`parse`, `dateNorm`, `hash`). Every theorem below
  quantifies over them or instantiates them consistently with the real
  functions on the concrete inputs used.
* The wall clock read by `new Date().toISOString()` inside the parser's
  parse-error branch is an explicit input `now`.
* JavaScript `Math.max(0, a - b)` on non-negative integers is Lean's
  truncated `Nat` subtraction.
-/

namespace Shadow

/-- A JSON value, the payload type of raw records (`RawCodexEvent`). -/
inductive Json where
  | null : Json
  | bool : Bool → Json
  | num : Int → Json
  | str : String → Json
  | arr : List Json → Json
  | obj : List (String × Json) → Json

/-- Property lookup `j?.k`: first matching key of an object, `undefined`
(`none`) on anything else. -/
def Json.getField : Json → String → Option Json
  | .obj fs, k => fs.lookup k
  | _, _ => none

/-- JavaScript `String(v)` for the values that can appear here.  Arrays
join their elements with `","`, where `null` elements render as `""`;
objects render as `"[object Object]"`. -/
def Json.jsToString : Json → String
  | .null => "null"
  | .bool true => "true"
  | .bool false => "false"
  | .num n => toString n
  | .str s => s
  | .arr xs => jsArrJoin xs
  | .obj _ => "[object Object]"
where
  /-- `Array.prototype.join` element stringification (`null` ↦ `""`). -/
  jsElem : Json → String
    | .null => ""
    | .bool true => "true"
    | .bool false => "false"
    | .num n => toString n
    | .str s => s
    | .arr xs => jsArrJoin xs
    | .obj _ => "[object Object]"
  jsArrJoin : List Json → String
    | [] => ""
    | [x] => jsElem x
    | x :: xs => jsElem x ++ "," ++ jsArrJoin xs

/-- JavaScript truthiness of a JSON value. -/
def Json.jsTruthy : Json → Bool
  | .null => false
  | .bool b => b
  | .num n => decide (n ≠ 0)
  | .str s => decide (s ≠ "")
  | .arr _ => true
  | .obj _ => true

/-- `utils.coerceString`: a string stays itself, `null`/`undefined` become
`undefined`, anything else goes through `String(value)`. -/
def coerceString : Option Json → Option String
  | none => none
  | some .null => none
  | some (.str s) => some s
  | some j => some j.jsToString

/-- Nullish-coalescing normalisation: `x ?? y` first sends a present
`null` to `none`. -/
def ncn : Option Json → Option Json
  | some .null => none
  | x => x

/-- ASCII whitespace, covering the characters JS `trim`/`\s` can meet in
the inputs modelled here. -/
def isWs (c : Char) : Bool := c = ' ' || c = '\t' || c = '\n' || c = '\r'

/-- `String.prototype.trim` on a character list. -/
def trimChars (l : List Char) : List Char :=
  ((l.dropWhile isWs).reverse.dropWhile isWs).reverse

/-- Does `p` occur at the head of `l`? -/
def listHasPfx : List Char → List Char → Bool
  | [], _ => true
  | _ :: _, [] => false
  | p :: ps, c :: cs => p = c && listHasPfx ps cs

/-- Does `needle` occur anywhere inside `hay` (JS `String.includes`)? -/
def containsSeq (needle : List Char) : List Char → Bool
  | [] => needle.isEmpty
  | c :: rest => listHasPfx needle (c :: rest) || containsSeq needle rest

/-- Lower-cased character list of a string (models `toLowerCase`, exact on
ASCII). -/
def lowerData (s : String) : List Char := s.data.map Char.toLower

/-! ### The incremental JSONL parser (`src/parser.ts`) -/

/-- `combined.split(/\r?\n/)`: split on `"\n"`, consuming one `'\r'`
immediately before it; a lone `'\r'` is ordinary text.  Always returns at
least one (possibly empty) segment, like the JS `split`. -/
def splitRN : List Char → List (List Char)
  | [] => [[]]
  | '\n' :: rest => [] :: splitRN rest
  | '\r' :: '\n' :: rest => [] :: splitRN rest
  | c :: rest =>
    match splitRN rest with
    | [] => [[c]]
    | l :: ls => (c :: l) :: ls

/-- `FileParseState` (`src/model.ts`): the per-file resume state.
`pendingBuffer` models the source's `partialBuffer` field. -/
structure FileParseState where
  filePath : String
  byteOffset : Nat
  pendingBuffer : List Char
  seq : Nat
  lastSize : Option Nat
  lastMtimeMs : Option Int
deriving DecidableEq, Repr

/-- `ParsedLineEvent` (`src/parser.ts`): one raw record yielded by a poll. -/
structure ParsedLineEvent where
  seq : Nat
  raw : Json
  rawLine : List Char

/-- `PollResult` (`src/parser.ts`). -/
structure PollResult where
  events : List ParsedLineEvent
  state : FileParseState
  truncated : Bool

/-- The synthetic raw record built for a line that fails `JSON.parse`:
`{ timestamp: new Date().toISOString(), type: "parse_error",
   payload: { message, line: trimmed.slice(0, 800) } }`. -/
def parseErrorRaw (now msg : String) (line : List Char) : Json :=
  .obj [("timestamp", .str now), ("type", .str "parse_error"),
        ("payload", .obj [("message", .str msg),
                          ("line", .str (String.mk (line.take 800)))])]

/-- The per-line loop of `poll`: trim, skip blanks, `safeJsonParse`, emit a
record with the next sequence number (parse failures yield the synthetic
`parse_error` record, never abort).  Returns the records and the final
sequence counter. -/
def processRecords (parse : String → Except String Json) (now : String) :
    List (List Char) → Nat → List ParsedLineEvent × Nat
  | [], s => ([], s)
  | l :: rest, s =>
    let t := trimChars l
    if t.isEmpty then processRecords parse now rest s
    else
      match parse (String.mk t) with
      | .error msg =>
        let r := processRecords parse now rest (s + 1)
        (⟨s + 1, parseErrorRaw now msg t, t⟩ :: r.1, r.2)
      | .ok v =>
        let r := processRecords parse now rest (s + 1)
        (⟨s + 1, v, t⟩ :: r.1, r.2)

/-- Line-boundary handling of `poll`: split the combined text; if it does
not end in a newline the trailing fragment becomes the new partial-line
buffer and is excluded from this call's lines. -/
def completeAndPending (combined : List Char) : List (List Char) × List Char :=
  let lines := splitRN combined
  if combined.getLast? = some '\n' then (lines, [])
  else (lines.dropLast, lines.getLastD [])

/-- The read-and-parse phase of `poll`, after truncation handling: with
`st0` the (possibly reset) state carrying the refreshed `lastSize` and
`lastMtimeMs`.  If the file has not grown past the offset, return
immediately with an empty batch and `st0` unchanged. -/
def readAndParse (parse : String → Except String Json) (now : String)
    (content : List Char) (st0 : FileParseState) (truncated : Bool) : PollResult :=
  let size := content.length
  if size ≤ st0.byteOffset then ⟨[], st0, truncated⟩
  else
    let combined := st0.pendingBuffer ++ content.drop st0.byteOffset
    let cp := completeAndPending combined
    let pr := processRecords parse now cp.1 st0.seq
    ⟨pr.1, { st0 with byteOffset := size, pendingBuffer := cp.2, seq := pr.2 }, truncated⟩

/-- `IncrementalJsonlParser.poll`: stat the file (`content.length`,
`mtimeMs`); if the size shrank below the previous offset, reset
offset/partial-buffer/sequence before reading and report `truncated`. -/
def poll (parse : String → Except String Json) (content : List Char) (mtimeMs : Int)
    (prev : FileParseState) (now : String) : PollResult :=
  let size := content.length
  if size < prev.byteOffset then
    readAndParse parse now content
      { prev with
        byteOffset := 0, pendingBuffer := [], seq := 0,
        lastSize := some size, lastMtimeMs := some mtimeMs } true
  else
    readAndParse parse now content
      { prev with lastSize := some size, lastMtimeMs := some mtimeMs } false

/-- The fresh resume state for a file never seen before. -/
def initState (filePath : String) : FileParseState :=
  ⟨filePath, 0, [], 0, none, none⟩

/-! ### The extractor / classifier (`src/extractor.ts`) -/

/-- `utils.splitLines`: normalise `\r\n` and `\r` to `\n`, then split. -/
def normNl : List Char → List Char
  | [] => []
  | '\r' :: '\n' :: rest => '\n' :: normNl rest
  | '\r' :: rest => '\n' :: normNl rest
  | c :: rest => c :: normNl rest

/-- Split on `'\n'` (after `normNl` this models `utils.splitLines`). -/
def splitOnNl : List Char → List (List Char)
  | [] => [[]]
  | '\n' :: rest => [] :: splitOnNl rest
  | c :: rest =>
    match splitOnNl rest with
    | [] => [[c]]
    | l :: ls => (c :: l) :: ls

/-- `utils.summarizeOneLine`: first non-blank line, trimmed, truncated to
`maxLen` with a `…` suffix. -/
def summarizeOneLine (text : String) (maxLen : Nat) : String :=
  let first := ((splitOnNl (normNl text.data)).find? (fun l => !(trimChars l).isEmpty)).getD []
  let t := trimChars first
  if t.length ≤ maxLen then String.mk t
  else String.mk (t.take (maxLen - 1)) ++ "…"

/-- `ShadowSeverity` (`src/model.ts`). -/
inductive ShadowSeverity where
  | info | warn | error
deriving DecidableEq, Repr

/-- `ShadowEventKind` (`src/model.ts`). -/
inductive ShadowEventKind where
  | REASONING | USER_MSG | AGENT_MSG | TOOL_CALL | TOOL_RESULT | META | ERROR
deriving DecidableEq, Repr

/-- `ShadowRawRef` (`src/model.ts`), with the fields the extractor fills. -/
structure ShadowRawRef where
  filePath : String
  seq : Nat
deriving DecidableEq, Repr

/-- `ShadowEvent` (`src/model.ts`). -/
structure ShadowEvent where
  id : String
  sessionKey : String
  sessionId : Option String := none
  ts : Option String
  seq : Nat
  kind : ShadowEventKind
  source : String
  title : String
  details : Json
  tags : List String
  severity : ShadowSeverity
  rawRef : ShadowRawRef
  relatedCallId : Option String := none

/-- `ExtractContext` (`src/extractor.ts`). -/
structure ExtractContext where
  sessionKey : String
  filePath : String

/-- The string hashed by `baseId`:
`` `${ctx.filePath}:${seq}:${ts ?? ""}:${type ?? ""}` ``. -/
def baseIdKey (ctx : ExtractContext) (seq : Nat) (ts : Option String) (ty : String) : String :=
  ctx.filePath ++ ":" ++ toString seq ++ ":" ++ ts.getD "" ++ ":" ++ ty

/-- `baseId`: `sha1Hex` of the key string; `hash` models `sha1Hex`. -/
def baseId (hash : String → String) (ctx : ExtractContext) (seq : Nat)
    (ts : Option String) (ty : String) : String :=
  hash (baseIdKey ctx seq ts ty)

/-- `utils.toIso`: non-strings map to `undefined`; `dateNorm` models the
`new Date(ts)` parse-and-reserialise step (`none` when the date is NaN). -/
def toIso (dateNorm : String → Option String) : Option Json → Option String
  | some (.str s) => dateNorm s
  | _ => none

/-- `severityFromText`: keyword scan of the lower-cased text. -/
def severityFromText (text : String) : ShadowSeverity :=
  let lower := lowerData text
  if containsSeq "disconnected".data lower || containsSeq "exception".data lower
      || containsSeq "failed".data lower || containsSeq "error".data lower then .error
  else if containsSeq "retry".data lower || containsSeq "warn".data lower then .warn
  else .info

/-- `tagifyToolName`. -/
def tagifyToolName (name : String) : List String :=
  if name.startsWith "mcp__" then ["tool", "mcp"]
  else if name = "shell_command" then ["tool", "shell"]
  else ["tool"]

/-- `\w` of the shell-classification regexes. -/
def wordChar (c : Char) : Bool := c.isAlpha || c.isDigit || c = '_'

/-- `\b<w>\b` somewhere in `cs` (both already lower-cased): the word occurs
with a non-word character (or the text edge) on each side. -/
def hasWord (w : List Char) : List Char → Bool :=
  go none
where
  boundary : Option Char → Bool
    | none => true
    | some c => !wordChar c
  go (prevCh : Option Char) : List Char → Bool
    | [] => false
    | c :: rest =>
      (boundary prevCh && listHasPfx w (c :: rest)
        && boundary ((c :: rest).drop w.length).head?)
      || go (some c) rest

/-- Any of the words, as `\b(w1|w2|...)\b`. -/
def hasAnyWord (ws : List String) (cs : List Char) : Bool :=
  ws.any (fun w => hasWord w.data cs)

/-- One char of the `[\\/]` class. -/
def sepCh (c : Char) : Bool := c = '/' || c = '\\'

/-- `/[\\/]\.agents[\\/](skills)[\\/]/` at the head of `cs` (lower-cased). -/
def skillPatAt (cs : List Char) : Bool :=
  match cs with
  | c :: rest =>
    sepCh c && listHasPfx ".agents".data rest &&
      (match rest.drop 7 with
       | d :: r2 =>
         sepCh d && listHasPfx "skills".data r2 &&
           (match r2.drop 6 with
            | e :: _ => sepCh e
            | [] => false)
       | [] => false)
  | [] => false

/-- The skill-path regex tested anywhere in the text. -/
def skillPat : List Char → Bool
  | [] => false
  | c :: rest => skillPatAt (c :: rest) || skillPat rest

/-- Result triple of `classifyShellCommand`. -/
structure ShellClass where
  tags : List String
  title : String
  details : Json

/-- `classifyShellCommand`: regex heuristics over the command text. -/
def classifyShellCommand (command : String) : ShellClass :=
  let lower := lowerData command
  let isSearch := hasAnyWord ["rg", "ripgrep", "grep", "findstr"] lower
  let isRead := hasAnyWord ["get-content", "cat", "type", "head", "tail"] lower
  let isSkill := skillPat lower
  let tags := ["shell"]
    ++ (if isSearch then ["search"] else [])
    ++ (if isRead then ["file-read"] else [])
    ++ (if isRead && isSkill then ["skill", "skill-read"] else [])
    ++ (if !isSearch && !isRead then ["exec"] else [])
  ⟨tags, summarizeOneLine command 140, .obj [("command", .str command)]⟩

/-- `parseToolArgs` / `parseToolOutput` result shape. -/
structure ToolParsed where
  parsed : Option Json
  raw : Option String
  parseError : Option String

/-- `parseToolArgs`: JSON-encoded string arguments are opportunistically
re-parsed; on failure the raw string is kept under `_raw`. -/
def parseToolArgs (parse : String → Except String Json) (rawArgs : Option Json) : ToolParsed :=
  match rawArgs with
  | some (.str s) =>
    match parse s with
    | .ok v => ⟨some v, some s, none⟩
    | .error msg => ⟨some (.obj [("_raw", .str s)]), some s, some msg⟩
  | other => ⟨other, none, none⟩

/-- `parseToolOutput`: like `parseToolArgs` but a failed re-parse keeps the
raw string itself as the parsed value. -/
def parseToolOutput (parse : String → Except String Json) (rawOutput : Option Json) : ToolParsed :=
  match rawOutput with
  | some (.str s) =>
    match parse s with
    | .ok v => ⟨some v, some s, none⟩
    | .error msg => ⟨some (.str s), some s, some msg⟩
  | other => ⟨other, none, none⟩

/-- Build a JS object literal, dropping `undefined`-valued properties. -/
def objOpt (fields : List (String × Option Json)) : Json :=
  .obj (fields.filterMap (fun kv => kv.2.map (fun j => (kv.1, j))))

/-- Decimal digit? -/
def isDigitCh (c : Char) : Bool := '0' ≤ c && c ≤ '9'

/-- Digit run to its numeric value (`Number(m[1])`). -/
def digitsToNat (ds : List Char) : Nat :=
  ds.foldl (fun acc c => acc * 10 + (c.toNat - 48)) 0

/-- Leftmost match of `/Exit code:\s*(\d+)/i`: scan the lower-cased text
for the literal marker, skip whitespace, and require at least one digit;
returns the captured digit run. -/
def findExitDigitsAux : List Char → Option (List Char)
  | [] => none
  | c :: rest =>
    if listHasPfx "exit code:".data (c :: rest) then
      let ds := (((c :: rest).drop 10).dropWhile isWs).takeWhile isDigitCh
      if ds.isEmpty then findExitDigitsAux rest else some ds
    else findExitDigitsAux rest

/-- `outStr.match(/Exit code:\s*(\d+)/i)`, digits of the first match. -/
def findExitDigits (s : String) : Option (List Char) :=
  findExitDigitsAux (lowerData s)

/-- `` `${x ?? "?"}` `` for an optional JSON payload field. -/
def dispOr (x : Option Json) (alt : String) : String :=
  match ncn x with
  | some j => j.jsToString
  | none => alt

/-- `payload ?? {}`. -/
def payloadOr (raw : Json) : Json :=
  match ncn (raw.getField "payload") with
  | some p => p
  | none => .obj []

/-- The `type` discriminator of a raw record when it is a string. -/
def rawType (raw : Json) : Option String :=
  match raw.getField "type" with
  | some (.str s) => some s
  | _ => none

/-- `isEventMsg` / `isResponseItem` guard: `type` matches, the payload is
truthy, and `payload.type` is a string; returns the payload and its type. -/
def payloadOfTyped (raw : Json) (ty : String) : Option (Json × String) :=
  if rawType raw = some ty then
    match raw.getField "payload" with
    | some p =>
      if p.jsTruthy then
        match p.getField "type" with
        | some (.str pt) => some (p, pt)
        | _ => none
      else none
    | none => none
  else none

/-- Truthiness of an optional JS string (`undefined` and `""` are falsy). -/
def strTruthy : Option String → Bool
  | some s => decide (s ≠ "")
  | none => false

/-- `` `${x}` `` where `x : string | undefined`. -/
def interpOpt : Option String → String
  | some s => s
  | none => "undefined"

/-- The `actions` summary built for `mcp … batch_execute` calls:
`[tool, action, component, target].filter(Boolean).join(" ")` per command. -/
def mcpActionLine (c : Json) : String :=
  let tool : String := match c.getField "tool" with
    | some (.str s) => s
    | _ => "?"
  let params := c.getField "params"
  let action : Option String := match params.bind (fun p => p.getField "action") with
    | some (.str s) => some s
    | _ => none
  let component : Option String := match params.bind (fun p => p.getField "component_type") with
    | some (.str s) => some s
    | _ => none
  let target : Option String := match ncn (params.bind (fun p => p.getField "target")) with
    | some j => some j.jsToString
    | none => none
  String.intercalate " "
    (([some tool, action, component, target].filterMap id).filter (fun s => s ≠ ""))

/-- `extractShadowEvents` (`src/extractor.ts`): map one raw record to zero
or one normalised events.  `parse`, `dateNorm` and `hash` model
`safeJsonParse`, the `Date` step of `toIso`, and `sha1Hex`. -/
def extractShadowEvents (parse : String → Except String Json)
    (dateNorm : String → Option String) (hash : String → String)
    (ctx : ExtractContext) (item : ParsedLineEvent) : List ShadowEvent :=
  let raw := item.raw
  let ts := toIso dateNorm (raw.getField "timestamp")
  let rref : ShadowRawRef := ⟨ctx.filePath, item.seq⟩
  if rawType raw = some "parse_error" then
    let msg := (coerceString ((raw.getField "payload").bind
      (fun p => p.getField "message"))).getD "JSON parse error"
    [{ id := baseId hash ctx item.seq ts "parse_error", sessionKey := ctx.sessionKey,
       ts, seq := item.seq, kind := .ERROR, source := "parser",
       title := "Parse error: " ++ summarizeOneLine msg 140,
       details := payloadOr raw, tags := ["error", "parse"],
       severity := .error, rawRef := rref }]
  else if rawType raw = some "session_meta" then
    let payload := payloadOr raw
    let title := "Session started / cwd=" ++ dispOr (payload.getField "cwd") "?"
      ++ " / model=" ++ dispOr (ncn (payload.getField "model") <|> payload.getField "model_provider") "?"
    [{ id := baseId hash ctx item.seq ts "session_meta", sessionKey := ctx.sessionKey,
       sessionId := (match payload.getField "id" with | some (.str s) => some s | _ => none),
       ts, seq := item.seq, kind := .META, source := "session_meta", title,
       details := payload, tags := ["meta", "session"], severity := .info, rawRef := rref }]
  else if rawType raw = some "turn_context" then
    let payload := payloadOr raw
    let title := "Turn context / approval=" ++ dispOr (payload.getField "approval_policy") "?"
      ++ " / cwd=" ++ dispOr (payload.getField "cwd") "?"
    [{ id := baseId hash ctx item.seq ts "turn_context", sessionKey := ctx.sessionKey,
       ts, seq := item.seq, kind := .META, source := "turn_context", title,
       details := payload, tags := ["meta", "turn"], severity := .info, rawRef := rref }]
  else
    let eventMsgEvents : Option (List ShadowEvent) :=
      match payloadOfTyped raw "event_msg" with
      | none => none
      | some (p, pt) =>
        if pt = "agent_reasoning" then
          let text := (coerceString (p.getField "text")).getD ""
          some [{ id := baseId hash ctx item.seq ts "agent_reasoning",
                  sessionKey := ctx.sessionKey, ts, seq := item.seq, kind := .REASONING,
                  source := "event_msg", title := summarizeOneLine text 140,
                  details := .obj [("text", .str text)], tags := ["reasoning"],
                  severity := .info, rawRef := rref }]
        else if pt = "user_message" then
          let msg := (coerceString (p.getField "message")).getD ""
          some [{ id := baseId hash ctx item.seq ts "user_message",
                  sessionKey := ctx.sessionKey, ts, seq := item.seq, kind := .USER_MSG,
                  source := "event_msg", title := summarizeOneLine msg 140,
                  details := .obj [("text", .str msg)], tags := ["user"],
                  severity := .info, rawRef := rref }]
        else if pt = "agent_message" then
          let msg := (coerceString (p.getField "message")).getD ""
          some [{ id := baseId hash ctx item.seq ts "agent_message",
                  sessionKey := ctx.sessionKey, ts, seq := item.seq, kind := .AGENT_MSG,
                  source := "event_msg", title := summarizeOneLine msg 140,
                  details := .obj [("text", .str msg)], tags := ["agent"],
                  severity := .info, rawRef := rref }]
        else if pt = "token_count" then
          some [{ id := baseId hash ctx item.seq ts "token_count",
                  sessionKey := ctx.sessionKey, ts, seq := item.seq, kind := .META,
                  source := "event_msg", title := "Token count", details := p,
                  tags := ["meta", "token"], severity := .info, rawRef := rref }]
        else none
    match eventMsgEvents with
    | some evs => evs
    | none =>
      match payloadOfTyped raw "response_item" with
      | none => []
      | some (p, pt) =>
        if pt = "function_call" then
          let toolName := (coerceString (p.getField "name")).getD "unknown_tool"
          let callId := coerceString (p.getField "call_id")
          let argsParsed := parseToolArgs parse (p.getField "arguments")
          let tags := tagifyToolName toolName
          let toolObj := objOpt [("name", some (.str toolName)), ("args", argsParsed.parsed),
            ("argsRaw", argsParsed.raw.map .str), ("parseError", argsParsed.parseError.map .str)]
          if toolName = "shell_command" then
            let cmd := ((coerceString (argsParsed.parsed.bind (fun j => j.getField "command")))
              <|> (coerceString (argsParsed.parsed.bind (fun j => j.getField "cmd")))
              <|> argsParsed.raw).getD ""
            let cls := classifyShellCommand cmd
            [{ id := baseId hash ctx item.seq ts ("tool_call:" ++ toolName),
               sessionKey := ctx.sessionKey, ts, seq := item.seq, kind := .TOOL_CALL,
               source := "response_item", title := cls.title,
               details := .obj [("tool", toolObj), ("shell", cls.details)],
               tags := tags ++ cls.tags, severity := .info, rawRef := rref,
               relatedCallId := callId }]
          else if toolName.startsWith "mcp__" then
            let parts := toolName.splitOn "__"
            let server := parts.get? 1
            let method := parts.get? 2
            let derivedTags := ["mcp",
              (if strTruthy server then "mcp:" ++ interpOpt server else "mcp:unknown"),
              (if strTruthy method then "mcp:" ++ interpOpt server ++ ":" ++ interpOpt method
               else "mcp:unknown-method")]
            let title := "MCP " ++ server.getD "?" ++ "." ++ method.getD "?"
            let cmds : Option (List Json) :=
              match argsParsed.parsed.bind (fun j => j.getField "commands") with
              | some (.arr xs) => some xs
              | _ => none
            let mcpBase := [("server", server.map Json.str), ("method", method.map Json.str)]
            let mcpFields :=
              match cmds with
              | some xs =>
                if xs.length > 0 then
                  mcpBase ++ [("actions", some (.arr ((xs.take 50).map (fun c => .str (mcpActionLine c)))))]
                    ++ (if xs.length > 50 then [("actionsTruncated", some (.num (xs.length - 50 : Int)))] else [])
                else mcpBase
              | none => mcpBase
            [{ id := baseId hash ctx item.seq ts ("tool_call:" ++ toolName),
               sessionKey := ctx.sessionKey, ts, seq := item.seq, kind := .TOOL_CALL,
               source := "response_item", title,
               details := .obj [("tool", toolObj), ("mcp", objOpt mcpFields)],
               tags := tags ++ derivedTags, severity := .info, rawRef := rref,
               relatedCallId := callId }]
          else
            [{ id := baseId hash ctx item.seq ts ("tool_call:" ++ toolName),
               sessionKey := ctx.sessionKey, ts, seq := item.seq, kind := .TOOL_CALL,
               source := "response_item", title := "Tool call: " ++ toolName,
               details := .obj [("tool", toolObj)], tags := tags, severity := .info,
               rawRef := rref, relatedCallId := callId }]
        else if pt = "function_call_output" then
          let toolName := (coerceString (p.getField "name")).getD "unknown_tool"
          let callId := coerceString (p.getField "call_id")
          let outParsed := parseToolOutput parse (p.getField "output")
          let tags := "tool_result" :: tagifyToolName toolName
          let rawText := match outParsed.parsed with
            | some (.str s) => s
            | _ => outParsed.raw.getD ""
          let sev := if rawText = "" then ShadowSeverity.info else severityFromText rawText
          let title := toolName ++ " result: " ++
            (match sev with | .error => "error" | .warn => "warn" | .info => "ok")
          let toolObj := objOpt [("name", some (.str toolName)), ("output", outParsed.parsed),
            ("outputRaw", outParsed.raw.map .str), ("parseError", outParsed.parseError.map .str)]
          let mkResult (d : Json) : ShadowEvent :=
            { id := baseId hash ctx item.seq ts ("tool_result:" ++ toolName),
              sessionKey := ctx.sessionKey, ts, seq := item.seq, kind := .TOOL_RESULT,
              source := "response_item", title, details := d, tags := tags,
              severity := sev, rawRef := rref, relatedCallId := callId }
          if toolName = "shell_command" then
            let outStr := (coerceString (match outParsed.raw with
              | some s => some (.str s)
              | none => outParsed.parsed)).getD ""
            match findExitDigits outStr with
            | some ds =>
              let d2 := Json.obj [("tool", toolObj),
                ("shell", .obj [("exitCode", .num (digitsToNat ds : Int))])]
              if digitsToNat ds ≠ 0 then
                [{ id := baseId hash ctx item.seq ts ("tool_result:" ++ toolName),
                   sessionKey := ctx.sessionKey, ts, seq := item.seq, kind := .TOOL_RESULT,
                   source := "response_item",
                   title := "shell_command result: exit=" ++ String.mk ds, details := d2,
                   tags := tags ++ ["shell"], severity := .error, rawRef := rref,
                   relatedCallId := callId }]
              else [mkResult d2]
            | none => [mkResult (.obj [("tool", toolObj)])]
          else [mkResult (.obj [("tool", toolObj)])]
        else if pt = "reasoning" then
          let summaryText := match p.getField "summary" with
            | some (.arr xs) =>
              String.intercalate "\n" (xs.map (fun s =>
                match s.getField "text" with
                | none => ""
                | some .null => ""
                | some j => j.jsToString))
            | _ => ""
          if (trimChars summaryText.data).isEmpty then []
          else
            [{ id := baseId hash ctx item.seq ts "reasoning_summary",
               sessionKey := ctx.sessionKey, ts, seq := item.seq, kind := .REASONING,
               source := "response_item", title := summarizeOneLine summaryText 140,
               details := .obj [("text", .str summaryText)], tags := ["reasoning"],
               severity := .info, rawRef := rref }]
        else []

/-- The store's extraction loop over one poll batch. -/
def extractAll (parse : String → Except String Json) (dateNorm : String → Option String)
    (hash : String → String) (ctx : ExtractContext) (evs : List ParsedLineEvent) :
    List ShadowEvent :=
  evs.flatMap (extractShadowEvents parse dateNorm hash ctx)

/-! ### Pure kernels of the session store (`src/store.ts`) -/

/-- `PersistedFileProgress` (`src/model.ts`). -/
structure PersistedFileProgress where
  byteOffset : Nat
  lastSize : Nat
  lastMtimeMs : Int
deriving DecidableEq, Repr

/-- The hard-coded rewind margin of `getOrCreateFileState`. -/
def rewindMargin : Nat := 4096

/-- `ShadowCodexStore.getOrCreateFileState`: reuse the in-memory state if
present; otherwise build one, resuming from
`Math.max(0, savedOffset - rewind)` when persisted progress exists
(truncated `Nat` subtraction) — with the sequence counter at 0 either way. -/
def getOrCreateFileState (mem : Option FileParseState)
    (prog : Option PersistedFileProgress) (filePath : String) : FileParseState :=
  match mem with
  | some st => st
  | none =>
    match prog with
    | some p =>
      { filePath, byteOffset := p.byteOffset - rewindMargin, pendingBuffer := [],
        seq := 0, lastSize := some p.lastSize, lastMtimeMs := some p.lastMtimeMs }
    | none =>
      { filePath, byteOffset := 0, pendingBuffer := [], seq := 0,
        lastSize := none, lastMtimeMs := none }

/-- `ShadowCodexStore.validatePersistedProgress`. -/
def validatePersistedProgress (prog : Option PersistedFileProgress)
    (size : Nat) (mtimeMs : Int) : Bool :=
  match prog with
  | none => true
  | some p => !(decide (size < p.byteOffset)) && !(decide (mtimeMs < p.lastMtimeMs))

/-- The progress-validation prologue of `pollFileWithRetry` (store.ts
lines 304–310): on an inconsistent snapshot the persisted progress is
replaced by `{byteOffset: 0, …}` and the in-memory state dropped, then the
state used for polling is (re)created. -/
def preparePollState (prog : Option PersistedFileProgress) (mem : Option FileParseState)
    (filePath : String) (size : Nat) (mtimeMs : Int) :
    FileParseState × Option PersistedFileProgress :=
  if validatePersistedProgress prog size mtimeMs then
    (getOrCreateFileState mem prog filePath, prog)
  else
    let p0 : PersistedFileProgress := ⟨0, size, mtimeMs⟩
    (getOrCreateFileState none (some p0) filePath, some p0)

/-- The `EventDeduper` capacity used per session. -/
def dedupCapacity : Nat := 50000

/-- `EventDeduper.add`: ignore a known id, otherwise enqueue it and shift
the oldest entries out while the queue exceeds the capacity.  The JS class
keeps a `Set` mirroring the queue, so the queue alone is the state. -/
def dedupAdd (max : Nat) (q : List String) (id : String) : List String :=
  if id ∈ q then q
  else
    let q1 := q ++ [id]
    q1.drop (q1.length - max)

/-- The store's per-batch dedup-and-collect loop over extracted events
(store.ts lines 317–325): events whose id was already seen
(`deduper.has`) are dropped, the rest are admitted and remembered. -/
def dedupBatch (max : Nat) (start : List ShadowEvent × List String)
    (evs : List ShadowEvent) : List ShadowEvent × List String :=
  evs.foldl
    (fun acc se =>
      if se.id ∈ acc.2 then acc
      else (acc.1 ++ [se], dedupAdd max acc.2 se.id))
    start

/-- JavaScript string `<`: lexicographic comparison of code units,
modelled on the character lists. -/
def listLtB : List Char → List Char → Bool
  | [], [] => false
  | [], _ :: _ => true
  | _ :: _, [] => false
  | a :: as, b :: bs =>
    if a < b then true
    else if b < a then false
    else listLtB as bs

/-- `a < b` on strings as JS compares them. -/
def strLtB (a b : String) : Bool := listLtB a.data b.data

/-- The sort key `e.ts ?? ""` used by the store's comparator. -/
def tsKey (e : ShadowEvent) : String := e.ts.getD ""

/-- The order established by the comparator
`(a.ts ?? "").localeCompare(b.ts ?? "") || a.seq - b.seq`
(`localeCompare` modelled as code-unit string comparison, which agrees on
ISO-8601 timestamps). -/
def storeLe (a b : ShadowEvent) : Prop :=
  strLtB (tsKey a) (tsKey b) = true ∨ (tsKey a = tsKey b ∧ a.seq ≤ b.seq)

instance : DecidableRel storeLe := fun a b => by
  unfold storeLe; exact inferInstance

/-- `list.push(...out)` followed by the comparator sort (store.ts
lines 352–356); the JS engine's stable sort is modelled by insertion
sort. -/
def appendAndSort (list out : List ShadowEvent) : List ShadowEvent :=
  (list ++ out).insertionSort storeLe

/-- `ShadowCodexStore.updateSessionUpdatedAt` restricted to the updatedAt
field: `if (!session.updatedAt || iso > session.updatedAt)` assign.  An
empty stored string is falsy and gets overwritten. -/
def updateSessionUpdatedAt (old : Option String) (iso : Option String) :
    Option String × Bool :=
  match iso with
  | none => (old, false)
  | some s =>
    match old with
    | none => (some s, true)
    | some o => if o == "" || strLtB o s then (some s, true) else (old, false)

/-- The `reduce` computing `newestEventTs` over the freshly appended
events (store.ts line 363): `(!acc || (e.ts && e.ts > acc)) ? e.ts : acc`. -/
def newestEventTs (out : List ShadowEvent) : Option String :=
  out.foldl
    (fun acc e =>
      if (match acc with | none => true | some a => a == "") then e.ts
      else
        match acc, e.ts with
        | some a, some t => if (t != "") && strLtB a t then some t else acc
        | _, _ => acc)
    none

/-- The session-recency update after one poll (store.ts lines 363–365):
`updateSessionUpdatedAt(sessionKey, newestEventTs ?? fileMtimeIso)`. -/
def pollUpdatedAt (old : Option String) (out : List ShadowEvent)
    (fileMtimeIso : String) : Option String × Bool :=
  updateSessionUpdatedAt old (some ((newestEventTs out).getD fileMtimeIso))

/-! ### Order theory of the modelled string comparison -/

theorem listLtB_irrefl (l : List Char) : listLtB l l = false := by
  induction l with
  | nil => rfl
  | cons c rest ih =>
    unfold listLtB
    rw [if_neg (lt_irrefl c), if_neg (lt_irrefl c)]
    exact ih

theorem listLtB_nil_right (l : List Char) : listLtB l [] = false := by
  cases l <;> rfl

theorem listLtB_trans {a b c : List Char} (hab : listLtB a b = true)
    (hbc : listLtB b c = true) : listLtB a c = true := by
  induction a generalizing b c with
  | nil =>
    cases c with
    | nil => cases b <;> simp [listLtB] at hab hbc
    | cons z zs => rfl
  | cons x xs ih =>
    cases b with
    | nil => simp [listLtB] at hab
    | cons y ys =>
      cases c with
      | nil => simp [listLtB] at hbc
      | cons z zs =>
        unfold listLtB at hab hbc ⊢
        by_cases hxy : x < y
        · by_cases hyz : y < z
          · rw [if_pos (hxy.trans hyz)]
          · rw [if_neg hyz] at hbc
            by_cases hzy : z < y
            · rw [if_pos hzy] at hbc
              cases hbc
            · have hyzeq : y = z := le_antisymm (not_lt.mp hzy) (not_lt.mp hyz)
              rw [if_pos (hyzeq ▸ hxy)]
        · rw [if_neg hxy] at hab
          by_cases hyx : y < x
          · rw [if_pos hyx] at hab
            cases hab
          · have hxyeq : x = y := le_antisymm (not_lt.mp hyx) (not_lt.mp hxy)
            rw [if_neg hyx] at hab
            subst hxyeq
            by_cases hyz : x < z
            · rw [if_pos hyz]
            · rw [if_neg hyz] at hbc ⊢
              by_cases hzy : z < x
              · rw [if_pos hzy] at hbc
                cases hbc
              · rw [if_neg hzy] at hbc ⊢
                exact ih hab hbc

theorem listLtB_antisymm {a b : List Char} (hab : listLtB a b = false)
    (hba : listLtB b a = false) : a = b := by
  induction a generalizing b with
  | nil =>
    cases b with
    | nil => rfl
    | cons y ys => simp [listLtB] at hab
  | cons x xs ih =>
    cases b with
    | nil => simp [listLtB] at hba
    | cons y ys =>
      unfold listLtB at hab hba
      by_cases hxy : x < y
      · rw [if_pos hxy] at hab
        cases hab
      · by_cases hyx : y < x
        · rw [if_pos hyx] at hba
          cases hba
        · have hxyeq : x = y := le_antisymm (not_lt.mp hyx) (not_lt.mp hxy)
          subst hxyeq
          rw [if_neg hxy, if_neg hxy] at hab hba
          rw [ih hab hba]

theorem listLtB_asymm {a b : List Char} (hab : listLtB a b = true) :
    listLtB b a = false := by
  by_contra h
  have hba : listLtB b a = true := by
    cases hh : listLtB b a
    · exact absurd hh h
    · rfl
  have := listLtB_trans hab hba
  rw [listLtB_irrefl] at this
  cases this

theorem strLtB_irrefl (s : String) : strLtB s s = false := listLtB_irrefl s.data

theorem strLtB_empty_right (s : String) : strLtB s "" = false := listLtB_nil_right s.data

theorem strLtB_antisymm {a b : String} (hab : strLtB a b = false)
    (hba : strLtB b a = false) : a = b := by
  cases a with
  | mk da =>
    cases b with
    | mk db =>
      have : da = db := listLtB_antisymm hab hba
      rw [this]

theorem strLtB_trans {a b c : String} (hab : strLtB a b = true)
    (hbc : strLtB b c = true) : strLtB a c = true := listLtB_trans hab hbc

theorem strLtB_asymm {a b : String} (hab : strLtB a b = true) :
    strLtB b a = false := listLtB_asymm hab

/-! ### Basic facts about `poll` -/

theorem readAndParse_truncated (parse : String → Except String Json) (now : String)
    (content : List Char) (st : FileParseState) (t : Bool) :
    (readAndParse parse now content st t).truncated = t := by
  unfold readAndParse
  dsimp only
  split <;> rfl

theorem readAndParse_flag_irrel (parse : String → Except String Json) (now : String)
    (content : List Char) (st : FileParseState) (t t' : Bool) :
    (readAndParse parse now content st t).events = (readAndParse parse now content st t').events
    ∧ (readAndParse parse now content st t).state = (readAndParse parse now content st t').state := by
  unfold readAndParse
  dsimp only
  split <;> exact ⟨rfl, rfl⟩

theorem readAndParse_offset (parse : String → Except String Json) (now : String)
    (content : List Char) (st : FileParseState) (t : Bool) :
    (readAndParse parse now content st t).state.byteOffset
      = max st.byteOffset content.length := by
  unfold readAndParse
  dsimp only
  split
  · next h => simp only []; omega
  · next h => simp only []; omega

theorem readAndParse_lastStat (parse : String → Except String Json) (now : String)
    (content : List Char) (st : FileParseState) (t : Bool) :
    (readAndParse parse now content st t).state.lastSize = st.lastSize
    ∧ (readAndParse parse now content st t).state.lastMtimeMs = st.lastMtimeMs
    ∧ (readAndParse parse now content st t).state.filePath = st.filePath := by
  unfold readAndParse
  dsimp only
  split <;> exact ⟨rfl, rfl, rfl⟩

theorem poll_state_offset (parse : String → Except String Json) (content : List Char)
    (mt : Int) (prev : FileParseState) (now : String) :
    (poll parse content mt prev now).state.byteOffset = content.length := by
  unfold poll
  dsimp only
  split
  · next h => rw [readAndParse_offset]; simp
  · next h => rw [readAndParse_offset]; simp; omega

theorem poll_state_lastStat (parse : String → Except String Json) (content : List Char)
    (mt : Int) (prev : FileParseState) (now : String) :
    (poll parse content mt prev now).state.lastSize = some content.length
    ∧ (poll parse content mt prev now).state.lastMtimeMs = some mt
    ∧ (poll parse content mt prev now).state.filePath = prev.filePath := by
  unfold poll
  dsimp only
  split <;>
    exact ⟨((readAndParse_lastStat ..).1).trans rfl,
      ((readAndParse_lastStat ..).2.1).trans rfl,
      ((readAndParse_lastStat ..).2.2).trans rfl⟩

/-- Replacing the stat fields by their current values is the identity. -/
theorem FileParseState.update_lastStat_eq (s : FileParseState) (x : Nat) (y : Int)
    (hx : s.lastSize = some x) (hy : s.lastMtimeMs = some y) :
    (⟨s.filePath, s.byteOffset, s.pendingBuffer, s.seq, some x, some y⟩ : FileParseState)
      = s := by
  cases s
  simp_all

/-- A poll of a file that has not changed since the state was produced
(same length, same recorded stat, offset caught up) is a no-op. -/
theorem poll_noop (parse : String → Except String Json) (content : List Char) (mt : Int)
    (st : FileParseState) (now' : String)
    (hoff : st.byteOffset = content.length)
    (hls : st.lastSize = some content.length) (hlm : st.lastMtimeMs = some mt) :
    poll parse content mt st now' = ⟨[], st, false⟩ := by
  have hupd := FileParseState.update_lastStat_eq st content.length mt hls hlm
  unfold poll
  dsimp only
  rw [if_neg (by omega)]
  rw [hupd]
  unfold readAndParse
  dsimp only
  rw [if_pos (by omega)]

/-! ### Concrete stand-ins used by witnesses and counterexamples

`parseNever` agrees with `JSON.parse` on every non-JSON line fed to it
below; `parseDemo` additionally parses the two specific JSON lines the
witnesses use; `dateNormId` agrees with the `Date` round-trip on the
canonical ISO-8601 strings used; `hashId` is one admissible instantiation
of the hash parameter the theorems quantify over. -/

def parseNever : String → Except String Json := fun _ => .error "Unexpected token"

def parseDemo : String → Except String Json := fun s =>
  if s = "\x7b\"type\":\"turn_context\"\x7d" then .ok (.obj [("type", .str "turn_context")])
  else if s = "\x7b\"a\":1\x7d" then .ok (.obj [("a", .num 1)])
  else .error "Unexpected token"

def dateNormId : String → Option String := fun s => some s

def hashId : String → String := fun s => s

/-! ### Claim C4 — truncation detection and offset monotonicity -/

/-- C4: if the file's current size is strictly below the previous byte
offset, `poll` reports `truncated = true` and behaves exactly as a poll
from the initial state (offset 0, empty partial buffer, sequence 0) —
i.e. the resume fields are reset before reading restarts from the start;
otherwise `truncated = false` and the returned byte offset is at least the
input offset. -/
theorem claim_C4_truncation (parse : String → Except String Json) (content : List Char)
    (mt : Int) (prev : FileParseState) (now : String) :
    (content.length < prev.byteOffset →
      (poll parse content mt prev now).truncated = true
      ∧ (poll parse content mt prev now).events
          = (poll parse content mt (initState prev.filePath) now).events
      ∧ (poll parse content mt prev now).state
          = (poll parse content mt (initState prev.filePath) now).state)
    ∧ (¬ content.length < prev.byteOffset →
      (poll parse content mt prev now).truncated = false
      ∧ prev.byteOffset ≤ (poll parse content mt prev now).state.byteOffset) := by
  constructor
  · intro h
    have hpoll : poll parse content mt prev now
        = readAndParse parse now content
            ⟨prev.filePath, 0, [], 0, some content.length, some mt⟩ true := by
      unfold poll
      dsimp only
      rw [if_pos h]
    have hpoll2 : poll parse content mt (initState prev.filePath) now
        = readAndParse parse now content
            ⟨prev.filePath, 0, [], 0, some content.length, some mt⟩ false := by
      unfold poll initState
      dsimp only
      rw [if_neg (by omega)]
    rw [hpoll, hpoll2]
    exact ⟨readAndParse_truncated .., (readAndParse_flag_irrel ..).1,
      (readAndParse_flag_irrel ..).2⟩
  · intro h
    have hpoll : poll parse content mt prev now
        = readAndParse parse now content
            { prev with lastSize := some content.length, lastMtimeMs := some mt } false := by
      unfold poll
      dsimp only
      rw [if_neg h]
    rw [hpoll]
    refine ⟨readAndParse_truncated .., ?_⟩
    rw [readAndParse_offset]
    exact le_max_left _ _

/-- Witness for C4 at concrete inputs: a shrunk file (size 2 < offset 5)
and a grown file (size 3 ≥ offset 1). -/
theorem claim_C4_truncation_witness :
    (("x\n".data.length < 5)
      ∧ (poll parseNever "x\n".data 0 ⟨"f", 5, [], 3, none, none⟩ "T").truncated = true
      ∧ (poll parseNever "x\n".data 0 ⟨"f", 5, [], 3, none, none⟩ "T").events
          = (poll parseNever "x\n".data 0 (initState "f") "T").events
      ∧ (poll parseNever "x\n".data 0 ⟨"f", 5, [], 3, none, none⟩ "T").state
          = (poll parseNever "x\n".data 0 (initState "f") "T").state)
    ∧ ((poll parseNever "ab\n".data 0 ⟨"f", 1, [], 0, none, none⟩ "T").truncated = false
      ∧ 1 ≤ (poll parseNever "ab\n".data 0 ⟨"f", 1, [], 0, none, none⟩ "T").state.byteOffset) :=
  ⟨⟨by decide,
    (claim_C4_truncation parseNever "x\n".data 0 ⟨"f", 5, [], 3, none, none⟩ "T").1 (by decide)⟩,
   (claim_C4_truncation parseNever "ab\n".data 0 ⟨"f", 1, [], 0, none, none⟩ "T").2 (by decide)⟩

/-! ### Claim C5 — behaviour when the file has not grown -/

/-- C5 counterexample: the claim asserts that *whenever*
`size ≤ previous offset` the poll returns no events and an unchanged
state.  With a previous offset of 5 and a 2-byte file `"x\n"` we have
`size ≤ offset`, yet the truncation branch resets the offset and the poll
re-reads the file, returning one record. -/
theorem claim_C5_counterexample :
    ("x\n".data.length ≤ 5)
    ∧ (poll parseNever "x\n".data 0 ⟨"f", 5, [], 0, none, none⟩ "T").events.length = 1 := by
  exact ⟨by decide, by decide⟩

/-- C5 as amended: when the size *equals* the previous offset the poll
returns no events, `truncated = false`, and the state is unchanged except
that `lastSize`/`lastMtimeMs` are refreshed from the current stat; and
polling again right after any poll of the same unchanged file (same
content and mtime) yields no events and the identical state. -/
theorem claim_C5_amended (parse : String → Except String Json) (content : List Char)
    (mt : Int) (prev : FileParseState) (now now' : String) :
    (content.length = prev.byteOffset →
      (poll parse content mt prev now).events = []
      ∧ (poll parse content mt prev now).truncated = false
      ∧ (poll parse content mt prev now).state
          = { prev with lastSize := some content.length, lastMtimeMs := some mt })
    ∧ ((poll parse content mt (poll parse content mt prev now).state now').events = []
      ∧ (poll parse content mt (poll parse content mt prev now).state now').state
          = (poll parse content mt prev now).state
      ∧ (poll parse content mt (poll parse content mt prev now).state now').truncated
          = false) := by
  constructor
  · intro h
    have hpoll : poll parse content mt prev now
        = readAndParse parse now content
            { prev with lastSize := some content.length, lastMtimeMs := some mt } false := by
      unfold poll
      dsimp only
      rw [if_neg (by omega)]
    rw [hpoll]
    unfold readAndParse
    dsimp only
    rw [if_pos (by exact Nat.le_of_eq h)]
    exact ⟨rfl, rfl, rfl⟩
  · have hstat := poll_state_lastStat parse content mt prev now
    have h := poll_noop parse content mt (poll parse content mt prev now).state now'
      (poll_state_offset parse content mt prev now) hstat.1 hstat.2.1
    rw [h]
    exact ⟨rfl, rfl, rfl⟩

/-- Witness for C5 as amended: an unchanged 2-byte file polled from
offset 2, and the double-poll idempotence at the same input. -/
theorem claim_C5_amended_witness :
    ("ab".data.length = 2)
    ∧ (poll parseNever "ab".data 0 ⟨"f", 2, [], 7, some 2, some 0⟩ "T").events = []
    ∧ (poll parseNever "ab".data 0
        (poll parseNever "ab".data 0 ⟨"f", 2, [], 7, some 2, some 0⟩ "T").state "T").events
        = [] :=
  ⟨by decide,
   ((claim_C5_amended parseNever "ab".data 0 ⟨"f", 2, [], 7, some 2, some 0⟩ "T" "T").1
     (by decide)).1,
   ((claim_C5_amended parseNever "ab".data 0 ⟨"f", 2, [], 7, some 2, some 0⟩ "T" "T").2).1⟩

/-! ### Claim C7 — resume from persisted progress -/

/-- C7: a freshly created file state with a persisted-progress record
resumes from `max(0, savedOffset - rewindMargin)`; and whenever the
current size is below the saved offset or the mtime regressed, the saved
progress is discarded (replaced by an offset-0 record) and the state used
for the poll starts at offset 0 with a fresh sequence counter. -/
theorem claim_C7_resume (prog : PersistedFileProgress) (mem : Option FileParseState)
    (path : String) (size : Nat) (mtimeMs : Int) :
    (((getOrCreateFileState none (some prog) path).byteOffset : Int)
        = max 0 ((prog.byteOffset : Int) - (rewindMargin : Int))
      ∧ (getOrCreateFileState none (some prog) path).seq = 0
      ∧ (getOrCreateFileState none (some prog) path).pendingBuffer = [])
    ∧ (size < prog.byteOffset ∨ mtimeMs < prog.lastMtimeMs →
      (preparePollState (some prog) mem path size mtimeMs).1.byteOffset = 0
      ∧ (preparePollState (some prog) mem path size mtimeMs).1.seq = 0
      ∧ (preparePollState (some prog) mem path size mtimeMs).2
          = some ⟨0, size, mtimeMs⟩) := by
  constructor
  · refine ⟨?_, rfl, rfl⟩
    unfold getOrCreateFileState rewindMargin
    dsimp only
    omega
  · intro h
    have hv : validatePersistedProgress (some prog) size mtimeMs = false := by
      unfold validatePersistedProgress
      rcases h with h | h <;> simp [h]
    unfold preparePollState
    rw [hv]
    rw [if_neg Bool.false_ne_true]
    refine ⟨?_, rfl, rfl⟩
    simp [getOrCreateFileState, rewindMargin]

/-- Witness for C7: saved offset 5000 (resume at 904), and a shrunk file
(size 4 < 5000) discarding the snapshot. -/
theorem claim_C7_resume_witness :
    (((getOrCreateFileState none (some ⟨5000, 6000, 9⟩) "f").byteOffset : Int)
        = max 0 ((5000 : Int) - 4096)
      ∧ (getOrCreateFileState none (some ⟨5000, 6000, 9⟩) "f").seq = 0)
    ∧ ((4 : Nat) < 5000
      ∧ (preparePollState (some ⟨5000, 6000, 9⟩) none "f" 4 9).1.byteOffset = 0
      ∧ (preparePollState (some ⟨5000, 6000, 9⟩) none "f" 4 9).2 = some ⟨0, 4, 9⟩) :=
  ⟨⟨(claim_C7_resume ⟨5000, 6000, 9⟩ none "f" 4 9).1.1,
    (claim_C7_resume ⟨5000, 6000, 9⟩ none "f" 4 9).1.2.1⟩,
   by decide,
   ((claim_C7_resume ⟨5000, 6000, 9⟩ none "f" 4 9).2 (Or.inl (by decide))).1,
   ((claim_C7_resume ⟨5000, 6000, 9⟩ none "f" 4 9).2 (Or.inl (by decide))).2.2⟩

/-! ### Claim C2 — the per-session event list stays sorted -/

instance : IsTotal ShadowEvent storeLe where
  total a b := by
    unfold storeLe
    cases hab : strLtB (tsKey a) (tsKey b) with
    | true => exact .inl (.inl rfl)
    | false =>
      cases hba : strLtB (tsKey b) (tsKey a) with
      | true => exact .inr (.inl rfl)
      | false =>
        have he : tsKey a = tsKey b := strLtB_antisymm hab hba
        rcases Nat.le_total a.seq b.seq with hs | hs
        · exact .inl (.inr ⟨he, hs⟩)
        · exact .inr (.inr ⟨he.symm, hs⟩)

instance : IsTrans ShadowEvent storeLe where
  trans a b c hab hbc := by
    unfold storeLe at *
    rcases hab with h | ⟨he, hs⟩ <;> rcases hbc with h' | ⟨he', hs'⟩
    · exact .inl (strLtB_trans h h')
    · exact .inl (he' ▸ h)
    · exact .inl (he ▸ h')
    · exact .inr ⟨he.trans he', hs.trans hs'⟩

/-- C2: after every append-and-resort of a batch into a session's event
list, any earlier-placed event `A` and later-placed event `B` satisfy
`A.ts < B.ts`, or `A.ts = B.ts` and `A.seq ≤ B.seq` (timestamps compared
through the `ts ?? ""` sort key the comparator uses). -/
theorem claim_C2_ordering (list out : List ShadowEvent) :
    List.Pairwise
      (fun A B => strLtB (tsKey A) (tsKey B) = true
        ∨ (tsKey A = tsKey B ∧ A.seq ≤ B.seq))
      (appendAndSort list out) :=
  List.sorted_insertionSort storeLe (list ++ out)

/-! ### Claim C9 — session recency updates -/

/-- C9 counterexample: a poll that appends one event whose timestamp is
older than the file's mtime.  The store computes
`newestEventTs ?? fileMtimeIso` (not their maximum), so `updatedAt` ends
up *below* the file's modification time, contradicting the claimed lower
bound `max(newest event ts, mtime)`. -/
theorem claim_C9_counterexample :
    (pollUpdatedAt none
        [{ id := "id1", sessionKey := "s", ts := some "2024-01-01T00:00:00.000Z", seq := 1,
           kind := .META, source := "m", title := "t", details := .obj [], tags := [],
           severity := .info, rawRef := ⟨"f", 1⟩ }]
        "2024-06-01T00:00:00.000Z").1
      = some "2024-01-01T00:00:00.000Z"
    ∧ strLtB "2024-01-01T00:00:00.000Z" "2024-06-01T00:00:00.000Z" = true := by
  exact ⟨rfl, by decide⟩

/-- C9 as amended: `updatedAt` never decreases across a poll (the new
value is never below the old one), and its new value is at least
`newestEventTs ?? fileMtimeIso` — i.e. at least the newest appended event
timestamp when one exists, and at least the file mtime when no appended
event carries a timestamp.  The mtime is *not* a lower bound when an
older event timestamp wins the `??`. -/
theorem claim_C9_amended (old : Option String) (out : List ShadowEvent)
    (mtimeIso : String) :
    ∃ r, (pollUpdatedAt old out mtimeIso).1 = some r
      ∧ (∀ o, old = some o → strLtB r o = false)
      ∧ strLtB r ((newestEventTs out).getD mtimeIso) = false
      ∧ (newestEventTs out = none → strLtB r mtimeIso = false) := by
  unfold pollUpdatedAt updateSessionUpdatedAt
  cases old with
  | none =>
    refine ⟨(newestEventTs out).getD mtimeIso, rfl, ?_, strLtB_irrefl _, ?_⟩
    · intro o ho
      cases ho
    · intro hn
      rw [hn]
      exact strLtB_irrefl _
  | some o =>
    dsimp only
    by_cases hc : (o == "" || strLtB o ((newestEventTs out).getD mtimeIso)) = true
    · rw [if_pos hc]
      refine ⟨(newestEventTs out).getD mtimeIso, rfl, ?_, strLtB_irrefl _, ?_⟩
      · intro o' ho'
        injection ho' with ho'
        subst ho'
        rcases Bool.or_eq_true_iff.mp hc with hc | hc
        · rw [eq_of_beq hc]
          exact strLtB_empty_right _
        · exact strLtB_asymm hc
      · intro hn
        rw [hn]
        exact strLtB_irrefl _
    · rw [if_neg hc]
      have hcsplit : (o == "") = false ∧ strLtB o ((newestEventTs out).getD mtimeIso) = false := by
        constructor
        · cases h1 : (o == "")
          · rfl
          · exact absurd (by rw [h1]; rfl) hc
        · cases h2 : strLtB o ((newestEventTs out).getD mtimeIso)
          · rfl
          · exact absurd (by rw [h2, Bool.or_true]) hc
      refine ⟨o, rfl, ?_, hcsplit.2, ?_⟩
      · intro o' ho'
        cases ho'
        exact strLtB_irrefl _
      · intro hn
        have := hcsplit.2
        rw [hn] at this
        exact this

/-- Witness for C9 as amended at a concrete input. -/
theorem claim_C9_amended_witness :
    ∃ r, (pollUpdatedAt (some "2024-01-01") [] "2024-02-01").1 = some r
      ∧ strLtB r "2024-01-01" = false ∧ strLtB r "2024-02-01" = false := by
  obtain ⟨r, h1, h2, h3, h4⟩ := claim_C9_amended (some "2024-01-01") [] "2024-02-01"
  exact ⟨r, h1, h2 _ rfl, h4 rfl⟩

/-! ### Composition theory of the line splitter

`splitRN_append` is the heart of the partial-line safety argument: the
segments of `a ++ b` are the completed segments of `a` followed by the
segments obtained by re-splitting `a`'s trailing fragment glued to `b` —
exactly what the parser's partial-buffer carry does. -/

theorem splitRN_ne_nil (l : List Char) : splitRN l ≠ [] := by
  induction l using splitRN.induct with
  | case1 => simp [splitRN]
  | case2 rest ih => simp [splitRN]
  | case3 rest ih => simp [splitRN]
  | case4 c rest h1 h2 hnil ih => exact absurd hnil ih
  | case5 c rest h1 h2 l ls heq ih =>
    rw [splitRN.eq_4 c rest h1 h2, heq]
    simp

theorem dropLast_cons_ne {α : Type} (x : α) {q : List α} (hq : q ≠ []) :
    (x :: q).dropLast = x :: q.dropLast := by
  cases q with
  | nil => exact absurd rfl hq
  | cons y q' => rfl

theorem getLastD_indep {α : Type} {q : List α} (hq : q ≠ []) (d d' : α) :
    q.getLastD d = q.getLastD d' := by
  cases q with
  | nil => exact absurd rfl hq
  | cons y q' => rfl

/-- A one-segment split means the text had no line separator: the segment
is the text itself. -/
theorem splitRN_single {r : List Char} : ∀ {l : List Char}, splitRN r = [l] → l = r := by
  induction r using splitRN.induct with
  | case1 =>
    intro l h
    simp [splitRN] at h
    exact h
  | case2 rest ih =>
    intro l h
    rw [show splitRN ('\n' :: rest) = [] :: splitRN rest from rfl] at h
    have := splitRN_ne_nil rest
    simp at h
    exact absurd h.2 this
  | case3 rest ih =>
    intro l h
    rw [show splitRN ('\r' :: '\n' :: rest) = [] :: splitRN rest from rfl] at h
    have := splitRN_ne_nil rest
    simp at h
    exact absurd h.2 this
  | case4 c rest h1 h2 hnil ih => exact absurd hnil (splitRN_ne_nil rest)
  | case5 c rest h1 h2 l0 ls heq ih =>
    intro l h
    rw [splitRN.eq_4 c rest h1 h2, heq] at h
    simp at h
    rcases h with ⟨hl, hls⟩
    subst hls
    have hrest := ih (l := l0) heq
    rw [← hl, hrest]

/-- Last segment of a cons when the tail is nonempty: the head does not
matter. -/
theorem getLastD_cons_indep {α : Type} (x : α) {q : List α} (hq : q ≠ []) (d : α) :
    (x :: q).getLastD d = q.getLastD d := by
  cases q with
  | nil => exact absurd rfl hq
  | cons y q' => rfl

/-- The key composition law of `split(/\r?\n/)`: splitting `a ++ b` yields
all but the last segment of `a`\'s split, followed by the split of (last
segment of `a`) ++ `b`.  The carried last segment re-merges `\r\n` pairs
that straddle the boundary. -/
theorem splitRN_append (a b : List Char) :
    splitRN (a ++ b) = (splitRN a).dropLast ++ splitRN ((splitRN a).getLastD [] ++ b) := by
  induction a using splitRN.induct with
  | case1 => simp [splitRN]
  | case2 rest ih =>
    have hq := splitRN_ne_nil rest
    show [] :: splitRN (rest ++ b) = _
    rw [show splitRN ('\n' :: rest) = [] :: splitRN rest from rfl]
    rw [dropLast_cons_ne [] hq, getLastD_cons_indep [] hq]
    rw [ih]
    rfl
  | case3 rest ih =>
    have hq := splitRN_ne_nil rest
    show [] :: splitRN (rest ++ b) = _
    rw [show splitRN ('\r' :: '\n' :: rest) = [] :: splitRN rest from rfl]
    rw [dropLast_cons_ne [] hq, getLastD_cons_indep [] hq]
    rw [ih]
    rfl
  | case4 c rest h1 h2 hnil ih => exact absurd hnil (splitRN_ne_nil rest)
  | case5 c rest h1 h2 l ls heq ih =>
    rw [heq] at ih
    rw [splitRN.eq_4 c rest h1 h2, heq]
    cases rest with
    | nil =>
      have hthis : l = [] ∧ ls = [] := by
        rw [show splitRN ([] : List Char) = [[]] from rfl] at heq
        simp at heq
        exact ⟨heq.1, heq.2⟩
      rcases hthis with ⟨hl, hls⟩
      subst hl
      subst hls
      rfl
    | cons r0 rest' =>
      have hg2 : ∀ (rest_1 : List Char), c = '\r' → (r0 :: rest') ++ b = '\n' :: rest_1 → False := by
        intro rest_1 hc habs
        have hh := congrArg List.head? habs
        simp at hh
        exact h2 rest' hc (by rw [hh])
      cases ls with
      | nil =>
        have hlrest : l = r0 :: rest' := splitRN_single heq
        subst hlrest
        rfl
      | cons l2 ls' =>
        have hlsne : (l2 :: ls' : List (List Char)) ≠ [] := by simp
        rw [List.cons_append, splitRN.eq_4 c ((r0 :: rest') ++ b) h1 hg2, ih]
        rw [dropLast_cons_ne l hlsne, dropLast_cons_ne (c :: l) hlsne]
        rw [getLastD_cons_indep l hlsne, getLastD_cons_indep (c :: l) hlsne]
        rfl

theorem getLast?_cons_ne {α : Type} (x : α) {q : List α} (hq : q ≠ []) :
    (x :: q).getLast? = q.getLast? := by
  cases q with
  | nil => exact absurd rfl hq
  | cons y q' => exact List.getLast?_cons_cons

theorem getLast?_append_right {α : Type} (a : List α) {b : List α} (hb : b ≠ []) :
    (a ++ b).getLast? = b.getLast? := by
  induction a with
  | nil => rfl
  | cons x a' ih =>
    rw [List.cons_append, getLast?_cons_ne x (by simp [hb]), ih]

theorem dropLast_append_right {α : Type} (xs : List α) {ys : List α} (hy : ys ≠ []) :
    (xs ++ ys).dropLast = xs ++ ys.dropLast := by
  induction xs with
  | nil => rfl
  | cons x xs' ih =>
    rw [List.cons_append, dropLast_cons_ne x (by simp [hy]), ih, List.cons_append]

theorem getLastD_append_right {α : Type} (xs : List α) {ys : List α} (hy : ys ≠ [])
    (d : α) : (xs ++ ys).getLastD d = ys.getLastD d := by
  induction xs with
  | nil => rfl
  | cons x xs' ih =>
    rw [List.cons_append, getLastD_cons_indep x (by simp [hy]), ih]

theorem getLastD_of_getLast? {α : Type} {q : List α} {y : α} (h : q.getLast? = some y)
    (d : α) : q.getLastD d = y := by
  induction q generalizing d with
  | nil => cases h
  | cons x q' ih =>
    cases q' with
    | nil =>
      simp [List.getLast?] at h
      simp [List.getLastD, h]
    | cons z q'' =>
      rw [List.getLast?_cons_cons] at h
      rw [getLastD_cons_indep x (by simp) d]
      exact ih h d

theorem dropLast_append_getLast? {α : Type} {q : List α} {y : α}
    (h : q.getLast? = some y) : q.dropLast ++ [y] = q := by
  induction q with
  | nil => cases h
  | cons x q' ih =>
    cases q' with
    | nil =>
      simp [List.getLast?] at h
      simp [h]
    | cons z q'' =>
      rw [List.getLast?_cons_cons] at h
      rw [dropLast_cons_ne x (by simp), List.cons_append, ih h]

/-- Text ending in a newline splits into at least two segments, the last
of which is empty. -/
theorem splitRN_trailing (l : List Char) (h : l.getLast? = some '\n') :
    (splitRN l).getLast? = some ([] : List Char) ∧ 2 ≤ (splitRN l).length := by
  induction l using splitRN.induct with
  | case1 => cases h
  | case2 rest ih =>
    cases rest with
    | nil => exact ⟨rfl, by decide⟩
    | cons r rs =>
      have hr : (r :: rs).getLast? = some '\n' := by
        rw [getLast?_cons_ne '\n' (by simp)] at h
        exact h
      obtain ⟨ih1, ih2⟩ := ih hr
      rw [show splitRN ('\n' :: r :: rs) = [] :: splitRN (r :: rs) from rfl]
      constructor
      · rw [getLast?_cons_ne [] (splitRN_ne_nil _)]
        exact ih1
      · simp
        omega
  | case3 rest ih =>
    cases rest with
    | nil => exact ⟨rfl, by decide⟩
    | cons r rs =>
      have hr : (r :: rs).getLast? = some '\n' := by
        rw [getLast?_cons_ne '\r' (by simp), getLast?_cons_ne '\n' (by simp)] at h
        exact h
      obtain ⟨ih1, ih2⟩ := ih hr
      rw [show splitRN ('\r' :: '\n' :: r :: rs) = [] :: splitRN (r :: rs) from rfl]
      constructor
      · rw [getLast?_cons_ne [] (splitRN_ne_nil _)]
        exact ih1
      · simp
        omega
  | case4 c rest h1 h2 hnil ih => exact absurd hnil (splitRN_ne_nil rest)
  | case5 c rest h1 h2 l ls heq ih =>
    cases rest with
    | nil =>
      simp [List.getLast?] at h
      exact absurd h h1
    | cons r rs =>
      have hr : (r :: rs).getLast? = some '\n' := by
        rw [getLast?_cons_ne c (by simp)] at h
        exact h
      obtain ⟨ih1, ih2⟩ := ih hr
      rw [heq] at ih1 ih2
      have hlsne : ls ≠ [] := by
        intro hcon
        rw [hcon] at ih2
        simp at ih2
      rw [splitRN.eq_4 c (r :: rs) h1 h2, heq]
      constructor
      · rw [getLast?_cons_ne (c :: l) hlsne]
        rw [getLast?_cons_ne l hlsne] at ih1
        exact ih1
      · simp
        rcases ls with _ | ⟨z, zs⟩
        · exact absurd rfl hlsne
        · simp

/-! ### Record-processing lemmas -/

theorem processRecords_nil (parse : String → Except String Json) (now : String) (s : Nat) :
    processRecords parse now [] s = ([], s) := rfl

theorem processRecords_cons_blank (parse : String → Except String Json) (now : String)
    {l : List Char} (rest : List (List Char)) (s : Nat)
    (hb : (trimChars l).isEmpty = true) :
    processRecords parse now (l :: rest) s = processRecords parse now rest s := by
  rw [processRecords.eq_2]
  dsimp only
  rw [if_pos hb]

theorem processRecords_cons_err (parse : String → Except String Json) (now : String)
    {l : List Char} (rest : List (List Char)) (s : Nat) {msg : String}
    (hb : (trimChars l).isEmpty = false)
    (hp : parse (String.mk (trimChars l)) = .error msg) :
    processRecords parse now (l :: rest) s
      = (⟨s + 1, parseErrorRaw now msg (trimChars l), trimChars l⟩
          :: (processRecords parse now rest (s + 1)).1,
         (processRecords parse now rest (s + 1)).2) := by
  rw [processRecords.eq_2]
  dsimp only
  rw [if_neg (by simp [hb]), hp]

theorem processRecords_cons_ok (parse : String → Except String Json) (now : String)
    {l : List Char} (rest : List (List Char)) (s : Nat) {v : Json}
    (hb : (trimChars l).isEmpty = false)
    (hp : parse (String.mk (trimChars l)) = .ok v) :
    processRecords parse now (l :: rest) s
      = (⟨s + 1, v, trimChars l⟩ :: (processRecords parse now rest (s + 1)).1,
         (processRecords parse now rest (s + 1)).2) := by
  rw [processRecords.eq_2]
  dsimp only
  rw [if_neg (by simp [hb]), hp]

theorem processRecords_append (parse : String → Except String Json) (now : String)
    (l₁ l₂ : List (List Char)) (s : Nat) :
    processRecords parse now (l₁ ++ l₂) s
      = ((processRecords parse now l₁ s).1
          ++ (processRecords parse now l₂ (processRecords parse now l₁ s).2).1,
         (processRecords parse now l₂ (processRecords parse now l₁ s).2).2) := by
  induction l₁ generalizing s with
  | nil => simp [processRecords_nil]
  | cons l rest ih =>
    rw [List.cons_append]
    cases hb : (trimChars l).isEmpty with
    | true =>
      rw [processRecords_cons_blank parse now _ s hb,
        processRecords_cons_blank parse now _ s hb]
      exact ih s
    | false =>
      cases hp : parse (String.mk (trimChars l)) with
      | error msg =>
        rw [processRecords_cons_err parse now _ s hb hp,
          processRecords_cons_err parse now _ s hb hp]
        rw [ih (s + 1)]
        simp
      | ok v =>
        rw [processRecords_cons_ok parse now _ s hb hp,
          processRecords_cons_ok parse now _ s hb hp]
        rw [ih (s + 1)]
        simp

theorem processRecords_blank_tail (parse : String → Except String Json) (now : String)
    (ls : List (List Char)) (s : Nat) :
    processRecords parse now (ls ++ [[]]) s = processRecords parse now ls s := by
  rw [processRecords_append]
  rw [show processRecords parse now [[]] (processRecords parse now ls s).2
      = ([], (processRecords parse now ls s).2) from
    processRecords_cons_blank parse now [] _ rfl]
  simp

/-- Starting the counter `d` higher shifts every record's sequence number
by `d` and the final counter by `d`; nothing else changes. -/
theorem processRecords_shift (parse : String → Except String Json) (now : String)
    (ls : List (List Char)) (s d : Nat) :
    (processRecords parse now ls (s + d)).1
      = (processRecords parse now ls s).1.map (fun r => ⟨r.seq + d, r.raw, r.rawLine⟩)
    ∧ (processRecords parse now ls (s + d)).2 = (processRecords parse now ls s).2 + d := by
  induction ls generalizing s with
  | nil => simp [processRecords_nil]
  | cons l rest ih =>
    cases hb : (trimChars l).isEmpty with
    | true =>
      rw [processRecords_cons_blank parse now _ _ hb,
        processRecords_cons_blank parse now _ _ hb]
      exact ih s
    | false =>
      cases hp : parse (String.mk (trimChars l)) with
      | error msg =>
        rw [processRecords_cons_err parse now _ _ hb hp,
          processRecords_cons_err parse now _ _ hb hp]
        have := ih (s + 1)
        rw [show s + d + 1 = s + 1 + d by omega] at *
        simp [this.1, this.2]
      | ok v =>
        rw [processRecords_cons_ok parse now _ _ hb hp,
          processRecords_cons_ok parse now _ _ hb hp]
        have := ih (s + 1)
        rw [show s + d + 1 = s + 1 + d by omega] at *
        simp [this.1, this.2]

/-! ### Composition of the complete/pending decomposition -/

/-- The completed lines of `a ++ b` are `a`'s split minus its last
segment, followed by the completed lines of (pending of `a`) ++ `b`; the
pending fragments agree. -/
theorem completeAndPending_append (a : List Char) {b : List Char} (hb : b ≠ []) :
    (completeAndPending (a ++ b)).1
        = (splitRN a).dropLast ++ (completeAndPending ((completeAndPending a).2 ++ b)).1
    ∧ (completeAndPending (a ++ b)).2
        = (completeAndPending ((completeAndPending a).2 ++ b)).2 := by
  have hsplit := splitRN_append a b
  have hglab : (a ++ b).getLast? = b.getLast? := getLast?_append_right a hb
  by_cases hta : a.getLast? = some '\n'
  · have hcp_a : completeAndPending a = (splitRN a, []) := by
      unfold completeAndPending
      dsimp only
      rw [if_pos hta]
    obtain ⟨hlast, hlen⟩ := splitRN_trailing a hta
    have hgl : (splitRN a).getLastD [] = [] := getLastD_of_getLast? hlast []
    rw [hcp_a]
    dsimp only
    rw [List.nil_append]
    rw [hgl, List.nil_append] at hsplit
    by_cases htb : b.getLast? = some '\n'
    · unfold completeAndPending
      dsimp only
      rw [if_pos (by rw [hglab]; exact htb), if_pos htb]
      exact ⟨hsplit, rfl⟩
    · unfold completeAndPending
      dsimp only
      rw [if_neg (by rw [hglab]; exact htb), if_neg htb]
      constructor
      · rw [hsplit, dropLast_append_right _ (splitRN_ne_nil b)]
      · rw [hsplit, getLastD_append_right _ (splitRN_ne_nil b)]
  · have hcp_a : completeAndPending a = ((splitRN a).dropLast, (splitRN a).getLastD []) := by
      unfold completeAndPending
      dsimp only
      rw [if_neg hta]
    rw [hcp_a]
    dsimp only
    have hglgb : ((splitRN a).getLastD [] ++ b).getLast? = b.getLast? :=
      getLast?_append_right _ hb
    by_cases htb : b.getLast? = some '\n'
    · unfold completeAndPending
      dsimp only
      rw [if_pos (by rw [hglab]; exact htb), if_pos (by rw [hglgb]; exact htb)]
      exact ⟨hsplit, rfl⟩
    · unfold completeAndPending
      dsimp only
      rw [if_neg (by rw [hglab]; exact htb), if_neg (by rw [hglgb]; exact htb)]
      constructor
      · rw [hsplit, dropLast_append_right _ (splitRN_ne_nil _)]
      · rw [hsplit, getLastD_append_right _ (splitRN_ne_nil _)]

/-- The records produced from the completed lines coincide with those of
the split minus its last segment (in the trailing-newline case the last
segment is blank and yields no record). -/
theorem processRecords_cp_eq_dropLast (parse : String → Except String Json) (now : String)
    (a : List Char) (s : Nat) :
    processRecords parse now (completeAndPending a).1 s
      = processRecords parse now (splitRN a).dropLast s := by
  by_cases hta : a.getLast? = some '\n'
  · have hcp : (completeAndPending a).1 = splitRN a := by
      unfold completeAndPending
      dsimp only
      rw [if_pos hta]
    rw [hcp]
    obtain ⟨hlast, _⟩ := splitRN_trailing a hta
    conv_lhs => rw [← dropLast_append_getLast? hlast]
    rw [processRecords_blank_tail]
  · have hcp : (completeAndPending a).1 = (splitRN a).dropLast := by
      unfold completeAndPending
      dsimp only
      rw [if_neg hta]
    rw [hcp]

/-- Record-level composition: processing the completed lines of `a ++ b`
equals processing the completed lines of `a` and then of
(pending of `a`) ++ `b`, with the sequence counter threaded through. -/
theorem pollRecords_compose (parse : String → Except String Json) (now : String)
    (a : List Char) {b : List Char} (hb : b ≠ []) (s : Nat) :
    processRecords parse now (completeAndPending (a ++ b)).1 s
      = ((processRecords parse now (completeAndPending a).1 s).1
          ++ (processRecords parse now
                (completeAndPending ((completeAndPending a).2 ++ b)).1
                (processRecords parse now (completeAndPending a).1 s).2).1,
         (processRecords parse now
            (completeAndPending ((completeAndPending a).2 ++ b)).1
            (processRecords parse now (completeAndPending a).1 s).2).2) := by
  rw [(completeAndPending_append a hb).1, processRecords_append,
    ← processRecords_cp_eq_dropLast parse now a s]

/-! ### Shape lemmas for `poll` -/

/-- Unfolding of a poll that actually reads (`offset < size`). -/
theorem poll_shape (parse : String → Except String Json) (content : List Char) (mt : Int)
    (prev : FileParseState) (now : String) (hgrow : prev.byteOffset < content.length) :
    poll parse content mt prev now
      = ⟨(processRecords parse now
            (completeAndPending (prev.pendingBuffer ++ content.drop prev.byteOffset)).1
            prev.seq).1,
         ⟨prev.filePath, content.length,
          (completeAndPending (prev.pendingBuffer ++ content.drop prev.byteOffset)).2,
          (processRecords parse now
            (completeAndPending (prev.pendingBuffer ++ content.drop prev.byteOffset)).1
            prev.seq).2,
          some content.length, some mt⟩,
         false⟩ := by
  unfold poll
  dsimp only
  rw [if_neg (by omega)]
  unfold readAndParse
  dsimp only
  rw [if_neg (by omega)]

/-- Unfolding of a poll of a nonempty file from the initial state. -/
theorem poll_init_shape (parse : String → Except String Json) (content : List Char)
    (mt : Int) (path : String) (now : String) (hc : content ≠ []) :
    poll parse content mt (initState path) now
      = ⟨(processRecords parse now (completeAndPending content).1 0).1,
         ⟨path, content.length, (completeAndPending content).2,
          (processRecords parse now (completeAndPending content).1 0).2,
          some content.length, some mt⟩,
         false⟩ := by
  have h0 : 0 < content.length := List.length_pos.mpr hc
  rw [poll_shape parse content mt (initState path) now (by simpa [initState] using h0)]
  simp [initState]

/-- Polls from resume states agreeing on the resume fields agree. -/
theorem poll_congr (parse : String → Except String Json) (content : List Char) (mt : Int)
    {prev₁ prev₂ : FileParseState} (now : String)
    (h1 : prev₁.filePath = prev₂.filePath) (h2 : prev₁.byteOffset = prev₂.byteOffset)
    (h3 : prev₁.pendingBuffer = prev₂.pendingBuffer) (h4 : prev₁.seq = prev₂.seq) :
    poll parse content mt prev₁ now = poll parse content mt prev₂ now := by
  cases prev₁
  cases prev₂
  simp only at h1 h2 h3 h4
  subst h1
  subst h2
  subst h3
  subst h4
  rfl

/-! ### Clock independence -/

/-- The final sequence counter only counts non-blank lines: it does not
depend on the clock (or on any parse outcome). -/
theorem processRecords_snd_irrel (parse : String → Except String Json) (now now' : String)
    (ls : List (List Char)) (s : Nat) :
    (processRecords parse now ls s).2 = (processRecords parse now' ls s).2 := by
  induction ls generalizing s with
  | nil => rfl
  | cons l rest ih =>
    cases hb : (trimChars l).isEmpty with
    | true =>
      rw [processRecords_cons_blank parse now _ _ hb,
        processRecords_cons_blank parse now' _ _ hb]
      exact ih s
    | false =>
      cases hp : parse (String.mk (trimChars l)) with
      | error msg =>
        rw [processRecords_cons_err parse now _ _ hb hp,
          processRecords_cons_err parse now' _ _ hb hp]
        exact ih (s + 1)
      | ok v =>
        rw [processRecords_cons_ok parse now _ _ hb hp,
          processRecords_cons_ok parse now' _ _ hb hp]
        exact ih (s + 1)

/-- When every non-blank line parses, the records carry no wall-clock
timestamp and are clock-independent. -/
theorem processRecords_now_irrel (parse : String → Except String Json) (now now' : String)
    (ls : List (List Char))
    (hok : ∀ l ∈ ls, (trimChars l).isEmpty = false →
      (parse (String.mk (trimChars l))).isOk = true) (s : Nat) :
    processRecords parse now ls s = processRecords parse now' ls s := by
  induction ls generalizing s with
  | nil => rfl
  | cons l rest ih =>
    have hokr : ∀ l' ∈ rest, (trimChars l').isEmpty = false →
        (parse (String.mk (trimChars l'))).isOk = true :=
      fun l' hm => hok l' (List.mem_cons_of_mem l hm)
    cases hb : (trimChars l).isEmpty with
    | true =>
      rw [processRecords_cons_blank parse now _ _ hb,
        processRecords_cons_blank parse now' _ _ hb]
      exact ih hokr s
    | false =>
      cases hp : parse (String.mk (trimChars l)) with
      | error msg =>
        have := hok l (List.mem_cons_self l rest) hb
        rw [hp] at this
        cases this
      | ok v =>
        rw [processRecords_cons_ok parse now _ _ hb hp,
          processRecords_cons_ok parse now' _ _ hb hp]
        rw [ih hokr (s + 1)]

/-- The state returned by a poll does not depend on the clock. -/
theorem poll_state_now_irrel (parse : String → Except String Json) (content : List Char)
    (mt : Int) (prev : FileParseState) (now now' : String) :
    (poll parse content mt prev now).state = (poll parse content mt prev now').state
    ∧ (poll parse content mt prev now).truncated
        = (poll parse content mt prev now').truncated := by
  constructor
  · unfold poll readAndParse
    dsimp only
    split
    · split
      · rfl
      · dsimp only
        rw [processRecords_snd_irrel parse now now']
    · split
      · rfl
      · dsimp only
        rw [processRecords_snd_irrel parse now now']
  · unfold poll
    dsimp only
    split
    · rw [readAndParse_truncated, readAndParse_truncated]
    · rw [readAndParse_truncated, readAndParse_truncated]

/-- Core split law (one clock reading): polling `a`, then `a ++ b` from
the returned state, produces the records and final state of one poll of
`a ++ b`. -/
theorem poll_split_core (parse : String → Except String Json) (now : String)
    (a b : List Char) (mt : Int) (path : String) (ha : a ≠ []) (hb : b ≠ []) :
    (poll parse a mt (initState path) now).events
        ++ (poll parse (a ++ b) mt (poll parse a mt (initState path) now).state now).events
      = (poll parse (a ++ b) mt (initState path) now).events
    ∧ (poll parse (a ++ b) mt (poll parse a mt (initState path) now).state now).state
      = (poll parse (a ++ b) mt (initState path) now).state := by
  have hab : (a ++ b) ≠ [] := by simp [ha]
  have hb0 : 0 < b.length := List.length_pos.mpr hb
  have hgrow : a.length < (a ++ b).length := by
    rw [List.length_append]
    omega
  rw [poll_init_shape parse a mt path now ha]
  dsimp only
  rw [poll_shape parse (a ++ b) mt
    ⟨path, a.length, (completeAndPending a).2,
     (processRecords parse now (completeAndPending a).1 0).2,
     some a.length, some mt⟩ now hgrow]
  rw [poll_init_shape parse (a ++ b) mt path now hab]
  dsimp only
  rw [List.drop_left]
  rw [pollRecords_compose parse now a hb 0]
  dsimp only
  exact ⟨rfl, by rw [(completeAndPending_append a hb).2]⟩

/-- Split law at an arbitrary byte position `k ≤ |content|` (one clock
reading), edge cases included. -/
theorem poll_split (parse : String → Except String Json) (content : List Char) (k : Nat)
    (mt : Int) (path : String) (now : String) (hk : k ≤ content.length) :
    (poll parse (content.take k) mt (initState path) now).events
        ++ (poll parse content mt
              (poll parse (content.take k) mt (initState path) now).state now).events
      = (poll parse content mt (initState path) now).events
    ∧ (poll parse content mt
        (poll parse (content.take k) mt (initState path) now).state now).state
      = (poll parse content mt (initState path) now).state := by
  by_cases hk0 : k = 0
  · subst hk0
    have h1 : poll parse (content.take 0) mt (initState path) now
        = ⟨[], ⟨path, 0, [], 0, some 0, some mt⟩, false⟩ := by
      unfold poll initState readAndParse
      dsimp only
      rw [if_neg (by simp), if_pos (by simp)]
      simp
    rw [h1]
    dsimp only
    rw [@poll_congr parse content mt ⟨path, 0, [], 0, some 0, some mt⟩ (initState path)
      now rfl rfl rfl rfl]
    exact ⟨rfl, rfl⟩
  · by_cases hkn : k = content.length
    · subst hkn
      rw [List.take_length]
      have hstat := poll_state_lastStat parse content mt (initState path) now
      rw [poll_noop parse content mt (poll parse content mt (initState path) now).state now
        (poll_state_offset parse content mt (initState path) now) hstat.1 hstat.2.1]
      exact ⟨by simp, rfl⟩
    · have hklt : k < content.length := lt_of_le_of_ne hk hkn
      have hkpos : 0 < k := Nat.pos_of_ne_zero hk0
      have hane : content.take k ≠ [] := by
        intro hcon
        have h := congrArg List.length hcon
        rw [List.length_take, List.length_nil] at h
        omega
      have hbne : content.drop k ≠ [] := by
        intro hcon
        have h := congrArg List.length hcon
        rw [List.length_drop, List.length_nil] at h
        omega
      have hcore := poll_split_core parse now (content.take k) (content.drop k) mt path
        hane hbne
      rw [List.take_append_drop] at hcore
      exact hcore

/-- The records of a non-truncating poll are clock-independent provided
every non-blank line it processes parses. -/
theorem poll_events_now_irrel (parse : String → Except String Json) (content : List Char)
    (mt : Int) (prev : FileParseState) (now now' : String)
    (hnt : ¬ content.length < prev.byteOffset)
    (hok : prev.byteOffset < content.length →
      ∀ l ∈ (completeAndPending (prev.pendingBuffer ++ content.drop prev.byteOffset)).1,
        (trimChars l).isEmpty = false → (parse (String.mk (trimChars l))).isOk = true) :
    (poll parse content mt prev now).events = (poll parse content mt prev now').events := by
  unfold poll readAndParse
  dsimp only
  rw [if_neg hnt]
  split
  · rfl
  · next hread =>
    dsimp only
    rw [processRecords_now_irrel parse now now' _ (hok (by omega))]

/-- A non-blank completed line always lies in the split minus its last
segment (the trailing-newline case only adds a blank last segment). -/
theorem cp_fst_nonblank_sub (a : List Char) {l : List Char}
    (hl : l ∈ (completeAndPending a).1) (hnb : (trimChars l).isEmpty = false) :
    l ∈ (splitRN a).dropLast := by
  by_cases hta : a.getLast? = some '\n'
  · have hcp : (completeAndPending a).1 = splitRN a := by
      unfold completeAndPending
      dsimp only
      rw [if_pos hta]
    rw [hcp] at hl
    obtain ⟨hlast, _⟩ := splitRN_trailing a hta
    rw [← dropLast_append_getLast? hlast] at hl
    rcases List.mem_append.mp hl with h | h
    · exact h
    · exfalso
      have : l = [] := by simpa using h
      rw [this] at hnb
      simp [trimChars] at hnb
  · have hcp : (completeAndPending a).1 = (splitRN a).dropLast := by
      unfold completeAndPending
      dsimp only
      rw [if_neg hta]
    rw [hcp] at hl
    exact hl

/-- Transfer of the all-lines-parse hypothesis to a prefix read. -/
theorem hok_take (parse : String → Except String Json) (content : List Char) (k : Nat)
    (hk : k ≤ content.length)
    (hok : ∀ l ∈ (completeAndPending content).1,
      (trimChars l).isEmpty = false → (parse (String.mk (trimChars l))).isOk = true) :
    ∀ l ∈ (completeAndPending (content.take k)).1,
      (trimChars l).isEmpty = false → (parse (String.mk (trimChars l))).isOk = true := by
  intro l hl hnb
  by_cases hkn : k = content.length
  · subst hkn
    rw [List.take_length] at hl
    exact hok l hl hnb
  · have hbne : content.drop k ≠ [] := by
      intro hcon
      have h := congrArg List.length hcon
      rw [List.length_drop, List.length_nil] at h
      omega
    have hmem : l ∈ (splitRN (content.take k)).dropLast := cp_fst_nonblank_sub _ hl hnb
    apply hok l _ hnb
    have happ := (completeAndPending_append (content.take k) hbne).1
    rw [List.take_append_drop] at happ
    rw [happ]
    exact List.mem_append_left _ hmem

/-- Transfer of the all-lines-parse hypothesis to the continuation read. -/
theorem hok_drop (parse : String → Except String Json) (content : List Char) (k : Nat)
    (hklt : k < content.length)
    (hok : ∀ l ∈ (completeAndPending content).1,
      (trimChars l).isEmpty = false → (parse (String.mk (trimChars l))).isOk = true) :
    ∀ l ∈ (completeAndPending
      ((completeAndPending (content.take k)).2 ++ content.drop k)).1,
      (trimChars l).isEmpty = false → (parse (String.mk (trimChars l))).isOk = true := by
  intro l hl hnb
  have hbne : content.drop k ≠ [] := by
    intro hcon
    have h := congrArg List.length hcon
    rw [List.length_drop, List.length_nil] at h
    omega
  apply hok l _ hnb
  have happ := (completeAndPending_append (content.take k) hbne).1
  rw [List.take_append_drop] at happ
  rw [happ]
  exact List.mem_append_right _ hl

/-! ### Claim C3 — partial-line safety of split reads -/

/-- C3 counterexample: the two-call and one-call reads happen at
different wall-clock instants, and a line that fails `JSON.parse` embeds
the current clock in its synthetic record, so the record lists differ.
Here `"x\nz"` is split after byte 2 (the prefix is `"x\n"`); the bad line
`x` is stamped with the first call's clock in the split run but with the
third call's clock in the single run.  (`parseNever` agrees with
`JSON.parse` on `"x"`, which is not JSON.) -/
theorem claim_C3_counterexample :
    ("x\nz".data.take 2 = "x\n".data)
    ∧ ¬ ((poll parseNever "x\n".data 0 (initState "f") "2024-01-01T00:00:00.000Z").events
          ++ (poll parseNever "x\nz".data 0
                (poll parseNever "x\n".data 0 (initState "f")
                  "2024-01-01T00:00:00.000Z").state
                "2024-01-01T00:00:01.000Z").events
        = (poll parseNever "x\nz".data 0 (initState "f")
            "2024-01-01T00:00:02.000Z").events) := by
  refine ⟨by decide, fun h => ?_⟩
  have h2 := congrArg (List.map (fun r => coerceString (r.raw.getField "timestamp"))) h
  revert h2
  decide

/-- C3 as amended: splitting the byte stream at any position `k` and
threading the returned state always reproduces the final parse state of a
single full read; the concatenated record lists also coincide (a) whenever
the calls share one clock reading, and (b) at arbitrary clock readings
whenever every non-blank completed line of the content parses as JSON —
the only divergence the code allows is the wall-clock timestamp embedded
in synthetic parse-error records. -/
theorem claim_C3_amended (parse : String → Except String Json) (content : List Char)
    (k : Nat) (mt : Int) (path : String) (now₁ now₂ now₃ : String)
    (hk : k ≤ content.length) :
    ((poll parse content mt
        (poll parse (content.take k) mt (initState path) now₁).state now₂).state
      = (poll parse content mt (initState path) now₃).state)
    ∧ (now₁ = now₃ → now₂ = now₃ →
        (poll parse (content.take k) mt (initState path) now₁).events
          ++ (poll parse content mt
                (poll parse (content.take k) mt (initState path) now₁).state now₂).events
        = (poll parse content mt (initState path) now₃).events)
    ∧ ((∀ l ∈ (completeAndPending content).1, (trimChars l).isEmpty = false →
          (parse (String.mk (trimChars l))).isOk = true) →
        (poll parse (content.take k) mt (initState path) now₁).events
          ++ (poll parse content mt
                (poll parse (content.take k) mt (initState path) now₁).state now₂).events
        = (poll parse content mt (initState path) now₃).events) := by
  have hs1 := (poll_state_now_irrel parse (content.take k) mt (initState path) now₁ now₃).1
  have hsplit := poll_split parse content k mt path now₃ hk
  refine ⟨?_, ?_, ?_⟩
  · rw [hs1]
    rw [(poll_state_now_irrel parse content mt
      (poll parse (content.take k) mt (initState path) now₃).state now₂ now₃).1]
    exact hsplit.2
  · intro h13 h23
    subst h13
    subst h23
    exact (poll_split parse content k mt path _ hk).1
  · intro hok
    have hoff := poll_state_offset parse (content.take k) mt (initState path) now₃
    have hev1 : (poll parse (content.take k) mt (initState path) now₁).events
        = (poll parse (content.take k) mt (initState path) now₃).events := by
      apply poll_events_now_irrel parse (content.take k) mt (initState path) now₁ now₃
        (by simp [initState])
      intro _ l hl hnb
      exact hok_take parse content k hk hok l (by simpa [initState] using hl) hnb
    have hev2 : (poll parse content mt
          (poll parse (content.take k) mt (initState path) now₁).state now₂).events
        = (poll parse content mt
            (poll parse (content.take k) mt (initState path) now₃).state now₃).events := by
      rw [hs1]
      apply poll_events_now_irrel parse content mt
        (poll parse (content.take k) mt (initState path) now₃).state now₂ now₃
        (by rw [hoff]; rw [List.length_take]; omega)
      intro hlt l hl hnb
      by_cases hk0 : k = 0
      · subst hk0
        have h1 : poll parse (content.take 0) mt (initState path) now₃
            = ⟨[], ⟨path, 0, [], 0, some 0, some mt⟩, false⟩ := by
          unfold poll initState readAndParse
          dsimp only
          rw [if_neg (by simp), if_pos (by simp)]
          simp
        rw [h1] at hl
        exact hok l (by simpa using hl) hnb
      · have hane : content.take k ≠ [] := by
          intro hcon
          have h := congrArg List.length hcon
          rw [List.length_take, List.length_nil] at h
          omega
        rw [poll_init_shape parse (content.take k) mt path now₃ hane] at hl hlt
        dsimp only at hl hlt
        rw [List.length_take] at hl hlt
        have hklt : k < content.length := by omega
        have hmin : min k content.length = k := by omega
        rw [hmin] at hl
        exact hok_drop parse content k hklt hok l hl hnb
    rw [hev1, hev2]
    exact hsplit.1

/-- Witness for C3 as amended: content `{"a":1}` + newline + `{"a":1}`
split in the middle of the second line; every completed line parses via
`parseDemo` (which agrees with `JSON.parse` on these lines). -/
theorem claim_C3_amended_witness :
    ((10 : Nat) ≤ "\x7b\"a\":1\x7d\n\x7b\"a\":1\x7d\n".data.length)
    ∧ (∀ l ∈ (completeAndPending "\x7b\"a\":1\x7d\n\x7b\"a\":1\x7d\n".data).1,
        (trimChars l).isEmpty = false →
        (parseDemo (String.mk (trimChars l))).isOk = true)
    ∧ ((poll parseDemo ("\x7b\"a\":1\x7d\n\x7b\"a\":1\x7d\n".data.take 10) 0 (initState "f") "T1").events
        ++ (poll parseDemo "\x7b\"a\":1\x7d\n\x7b\"a\":1\x7d\n".data 0
              (poll parseDemo ("\x7b\"a\":1\x7d\n\x7b\"a\":1\x7d\n".data.take 10) 0 (initState "f")
                "T1").state "T2").events
      = (poll parseDemo "\x7b\"a\":1\x7d\n\x7b\"a\":1\x7d\n".data 0 (initState "f") "T3").events) :=
  ⟨by decide, by decide,
   (claim_C3_amended parseDemo "\x7b\"a\":1\x7d\n\x7b\"a\":1\x7d\n".data 10 0 "f" "T1" "T2" "T3"
     (by decide)).2.2 (by decide)⟩

/-! ### Claim C6 — malformed lines never abort a batch -/

/-- Newline-terminated concatenation of lines, used to state batch
properties. -/
def joinNL : List (List Char) → List Char
  | [] => []
  | l :: rest => l ++ '\n' :: joinNL rest

theorem joinNL_ne_nil {ls : List (List Char)} (h : ls ≠ []) : joinNL ls ≠ [] := by
  cases ls with
  | nil => exact absurd rfl h
  | cons l rest => simp [joinNL]

/-- Lines free of separators split back out of their newline-joined text
(plus the empty trailing segment after the final newline). -/
theorem splitRN_line_nl {l : List Char} (hfree : ∀ c ∈ l, c ≠ '\n' ∧ c ≠ '\r')
    (t : List Char) : splitRN (l ++ '\n' :: t) = l :: splitRN t := by
  induction l with
  | nil => rfl
  | cons c l' ih =>
    have hc := hfree c (List.mem_cons_self c l')
    have hfree' : ∀ c' ∈ l', c' ≠ '\n' ∧ c' ≠ '\r' :=
      fun c' hm => hfree c' (List.mem_cons_of_mem c hm)
    rw [List.cons_append]
    rw [splitRN.eq_4 c (l' ++ '\n' :: t) (fun hh => hc.1 hh)
      (fun rest_1 hh _ => hc.2 hh)]
    rw [ih hfree']

theorem splitRN_joinNL {ls : List (List Char)}
    (hfree : ∀ l ∈ ls, ∀ c ∈ l, c ≠ '\n' ∧ c ≠ '\r') :
    splitRN (joinNL ls) = ls ++ [[]] := by
  induction ls with
  | nil => rfl
  | cons l rest ih =>
    have hl := hfree l (List.mem_cons_self l rest)
    have hfree' : ∀ l' ∈ rest, ∀ c ∈ l', c ≠ '\n' ∧ c ≠ '\r' :=
      fun l' hm => hfree l' (List.mem_cons_of_mem l hm)
    rw [show joinNL (l :: rest) = l ++ '\n' :: joinNL rest from rfl]
    rw [splitRN_line_nl hl, ih hfree']
    rfl

theorem joinNL_getLast {ls : List (List Char)} (h : ls ≠ []) :
    (joinNL ls).getLast? = some '\n' := by
  induction ls with
  | nil => exact absurd rfl h
  | cons l rest ih =>
    rw [show joinNL (l :: rest) = l ++ '\n' :: joinNL rest from rfl]
    rw [getLast?_append_right l (by simp)]
    cases rest with
    | nil => rfl
    | cons l2 rest' =>
      rw [getLast?_cons_ne '\n' (joinNL_ne_nil (by simp))]
      exact ih (by simp)

/-- Completed lines of a newline-joined batch are exactly the lines (plus
one blank segment that produces no record); the pending buffer is empty. -/
theorem completeAndPending_joinNL {ls : List (List Char)} (h : ls ≠ [])
    (hfree : ∀ l ∈ ls, ∀ c ∈ l, c ≠ '\n' ∧ c ≠ '\r') :
    completeAndPending (joinNL ls) = (ls ++ [[]], []) := by
  unfold completeAndPending
  dsimp only
  rw [if_pos (joinNL_getLast h), splitRN_joinNL hfree]

/-- C6: in a batch of newline-terminated lines containing one line whose
trimmed text fails `JSON.parse`, the poll yields the earlier lines'
records, then exactly one synthetic `parse_error` record for the bad line
(it never throws or aborts), then the later lines' records processed
normally with the sequence counter simply continuing; and the extractor
maps that record to exactly one event with kind `ERROR`, severity
`error`, and tags `error` and `parse`. -/
theorem claim_C6_parse_error (parse : String → Except String Json)
    (dateNorm : String → Option String) (hash : String → String)
    (sk path : String) (pre post : List (List Char)) (bad : List Char)
    (mt : Int) (now : String) (msg : String)
    (hfree : ∀ l ∈ pre ++ [bad] ++ post, ∀ c ∈ l, c ≠ '\n' ∧ c ≠ '\r')
    (hbadnb : (trimChars bad).isEmpty = false)
    (hbadf : parse (String.mk (trimChars bad)) = .error msg) :
    (poll parse (joinNL (pre ++ [bad] ++ post)) mt (initState path) now).events
      = (processRecords parse now pre 0).1
        ++ (⟨(processRecords parse now pre 0).2 + 1,
             parseErrorRaw now msg (trimChars bad), trimChars bad⟩ : ParsedLineEvent)
        :: (processRecords parse now post ((processRecords parse now pre 0).2 + 1)).1
    ∧ (extractShadowEvents parse dateNorm hash ⟨sk, path⟩
        ⟨(processRecords parse now pre 0).2 + 1,
         parseErrorRaw now msg (trimChars bad), trimChars bad⟩).map
        (fun e => (e.kind, e.severity, e.tags))
      = [(ShadowEventKind.ERROR, ShadowSeverity.error, ["error", "parse"])] := by
  have hlsne : pre ++ [bad] ++ post ≠ [] := by simp
  constructor
  · rw [poll_init_shape parse _ mt path now (joinNL_ne_nil hlsne)]
    dsimp only
    rw [completeAndPending_joinNL hlsne hfree]
    dsimp only
    rw [processRecords_blank_tail]
    rw [processRecords_append, processRecords_append]
    rw [processRecords_cons_err parse now _ _ hbadnb hbadf]
    simp [processRecords_nil]
  · rfl

/-- Witness for C6: `not valid json` between no earlier lines and one
valid JSON line, with `parseDemo` agreeing with `JSON.parse` on both. -/
theorem claim_C6_parse_error_witness :
    ((trimChars "not valid json".data).isEmpty = false)
    ∧ (parseDemo (String.mk (trimChars "not valid json".data))
        = .error "Unexpected token")
    ∧ (poll parseDemo (joinNL ["not valid json".data, "\x7b\"a\":1\x7d".data]) 0
        (initState "f") "T").events
      = (⟨1, parseErrorRaw "T" "Unexpected token" "not valid json".data,
          "not valid json".data⟩ : ParsedLineEvent)
        :: (processRecords parseDemo "T" ["\x7b\"a\":1\x7d".data] 1).1
    ∧ (extractShadowEvents parseDemo dateNormId hashId ⟨"s", "f"⟩
        ⟨1, parseErrorRaw "T" "Unexpected token" "not valid json".data,
         "not valid json".data⟩).map (fun e => (e.kind, e.severity, e.tags))
      = [(ShadowEventKind.ERROR, ShadowSeverity.error, ["error", "parse"])] := by
  have h := claim_C6_parse_error parseDemo dateNormId hashId "s" "f" []
    ["\x7b\"a\":1\x7d".data] "not valid json".data 0 "T" "Unexpected token"
    (by decide) (by decide) rfl
  exact ⟨by decide, rfl, by simpa using h.1, h.2⟩

/-! ### Claim C1 — identity determinism and dedup idempotence -/

theorem dedupBatch_cons (max : Nat) (start : List ShadowEvent × List String)
    (e : ShadowEvent) (evs : List ShadowEvent) :
    dedupBatch max start (e :: evs)
      = dedupBatch max
          (if e.id ∈ start.2 then start else (start.1 ++ [e], dedupAdd max start.2 e.id))
          evs := by
  unfold dedupBatch
  rfl

/-- Below the capacity no eviction happens: the queue keeps every id it
has seen, and its length is bounded by what was processed. -/
theorem dedupBatch_mem (max : Nat) (evs : List ShadowEvent) (out : List ShadowEvent)
    (q : List String) (hlen : q.length + evs.length ≤ max) :
    (∀ id ∈ q, id ∈ (dedupBatch max (out, q) evs).2)
    ∧ (∀ e ∈ evs, e.id ∈ (dedupBatch max (out, q) evs).2)
    ∧ (dedupBatch max (out, q) evs).2.length ≤ q.length + evs.length := by
  induction evs generalizing out q with
  | nil =>
    refine ⟨fun id h => h, fun e h => absurd h (List.not_mem_nil e), by simp [dedupBatch]⟩
  | cons e rest ih =>
    rw [dedupBatch_cons]
    dsimp only
    by_cases hmem : e.id ∈ q
    · rw [if_pos hmem]
      have h := ih out q (by simp at hlen ⊢; omega)
      refine ⟨h.1, fun e' he' => ?_, h.2.2.trans (by simp)⟩
      rcases List.mem_cons.mp he' with he'' | he''
      · rw [he'']
        exact h.1 _ hmem
      · exact h.2.1 e' he''
    · rw [if_neg hmem]
      have hq1 : dedupAdd max q e.id = q ++ [e.id] := by
        unfold dedupAdd
        rw [if_neg hmem]
        dsimp only
        rw [show (q ++ [e.id]).length - max = 0 from by
          rw [List.length_append]
          simp at hlen ⊢
          omega]
        exact List.drop_zero _
      rw [hq1]
      have h := ih (out ++ [e]) (q ++ [e.id]) (by simp at hlen ⊢; omega)
      refine ⟨fun id hid => h.1 id (List.mem_append_left _ hid),
        fun e' he' => ?_, ?_⟩
      · rcases List.mem_cons.mp he' with he' | he'
        · rw [he']
          exact h.1 _ (List.mem_append_right _ (List.mem_singleton.mpr rfl))
        · exact h.2.1 e' he'
      · have := h.2.2
        simp at this ⊢
        omega

/-- A batch whose ids are all already remembered is fully rejected. -/
theorem dedupBatch_absorbed (max : Nat) (evs : List ShadowEvent)
    (out : List ShadowEvent) (q : List String) (h : ∀ e ∈ evs, e.id ∈ q) :
    dedupBatch max (out, q) evs = (out, q) := by
  induction evs with
  | nil => rfl
  | cons e rest ih =>
    rw [dedupBatch_cons]
    dsimp only
    rw [if_pos (h e (List.mem_cons_self e rest))]
    exact ih (fun e' he' => h e' (List.mem_cons_of_mem e he'))

theorem dedupBatch_append (max : Nat) (start : List ShadowEvent × List String)
    (evs₁ evs₂ : List ShadowEvent) :
    dedupBatch max start (evs₁ ++ evs₂)
      = dedupBatch max (dedupBatch max start evs₁) evs₂ :=
  List.foldl_append ..

/-- C1 counterexample: a line that fails `JSON.parse` gets its identity
from the wall clock of the poll that read it (`parser.ts` stamps the
synthetic record with `new Date().toISOString()`), so re-running the
pipeline over the same bytes at a later instant yields a *different* id —
and the dedup layer admits **both** copies.  (`parseNever` agrees with
`JSON.parse` on `"x"`; `hashId`/`dateNormId` instantiate the hash and
Date parameters; with real `sha1Hex` the two ids are the hashes of the
two distinct key strings below.) -/
theorem claim_C1_counterexample :
    ((extractAll parseNever dateNormId hashId ⟨"s", "f"⟩
        (poll parseNever "x\n".data 0 (initState "f")
          "2024-01-01T00:00:00.000Z").events).map (fun e => e.id)
      = ["f:1:2024-01-01T00:00:00.000Z:parse_error"])
    ∧ ((extractAll parseNever dateNormId hashId ⟨"s", "f"⟩
        (poll parseNever "x\n".data 0 (initState "f")
          "2024-01-01T00:00:01.000Z").events).map (fun e => e.id)
      = ["f:1:2024-01-01T00:00:01.000Z:parse_error"])
    ∧ (dedupBatch dedupCapacity ([], [])
        (extractAll parseNever dateNormId hashId ⟨"s", "f"⟩
          (poll parseNever "x\n".data 0 (initState "f")
            "2024-01-01T00:00:00.000Z").events
        ++ extractAll parseNever dateNormId hashId ⟨"s", "f"⟩
          (poll parseNever "x\n".data 0 (initState "f")
            "2024-01-01T00:00:01.000Z").events)).1.length = 2 := by
  exact ⟨by decide, by decide, by decide⟩

/-- C1 as amended: when every non-blank line of the content parses as
JSON (so no wall-clock-stamped parse-error records arise), running the
parser-plus-extractor pipeline twice over the same bytes — at arbitrary
clock readings — produces identical event lists (in particular identical
ids line by line), and, as long as the batch fits in the dedup capacity
(50 000 ids), the dedup layer admits only the first copy: processing the
two runs back-to-back admits exactly what the first run alone admits. -/
theorem claim_C1_amended (parse : String → Except String Json)
    (dateNorm : String → Option String) (hash : String → String)
    (content : List Char) (mt : Int) (path sk : String) (now₁ now₂ : String)
    (hok : ∀ l ∈ (completeAndPending content).1, (trimChars l).isEmpty = false →
      (parse (String.mk (trimChars l))).isOk = true) :
    (extractAll parse dateNorm hash ⟨sk, path⟩
        (poll parse content mt (initState path) now₁).events
      = extractAll parse dateNorm hash ⟨sk, path⟩
        (poll parse content mt (initState path) now₂).events)
    ∧ ((extractAll parse dateNorm hash ⟨sk, path⟩
          (poll parse content mt (initState path) now₁).events).length ≤ dedupCapacity →
        (dedupBatch dedupCapacity ([], [])
          (extractAll parse dateNorm hash ⟨sk, path⟩
            (poll parse content mt (initState path) now₁).events
          ++ extractAll parse dateNorm hash ⟨sk, path⟩
            (poll parse content mt (initState path) now₂).events)).1
        = (dedupBatch dedupCapacity ([], [])
            (extractAll parse dateNorm hash ⟨sk, path⟩
              (poll parse content mt (initState path) now₁).events)).1) := by
  have hev : (poll parse content mt (initState path) now₁).events
      = (poll parse content mt (initState path) now₂).events := by
    apply poll_events_now_irrel parse content mt (initState path) now₁ now₂
      (by simp [initState])
    intro _ l hl hnb
    exact hok l (by simpa [initState] using hl) hnb
  have hE : extractAll parse dateNorm hash ⟨sk, path⟩
      (poll parse content mt (initState path) now₁).events
      = extractAll parse dateNorm hash ⟨sk, path⟩
        (poll parse content mt (initState path) now₂).events := by
    rw [hev]
  refine ⟨hE, fun hlen => ?_⟩
  rw [← hE]
  rw [dedupBatch_append]
  have hmem := dedupBatch_mem dedupCapacity
    (extractAll parse dateNorm hash ⟨sk, path⟩
      (poll parse content mt (initState path) now₁).events) [] []
    (by simpa using hlen)
  obtain ⟨q1, hq1⟩ : ∃ q1, dedupBatch dedupCapacity ([], [])
      (extractAll parse dateNorm hash ⟨sk, path⟩
        (poll parse content mt (initState path) now₁).events)
      = ((dedupBatch dedupCapacity ([], [])
          (extractAll parse dateNorm hash ⟨sk, path⟩
            (poll parse content mt (initState path) now₁).events)).1, q1) :=
    ⟨_, rfl⟩
  rw [hq1]
  rw [dedupBatch_absorbed dedupCapacity _ _ q1 (fun e he => by
    have := hmem.2.1 e he
    rw [hq1] at this
    exact this)]

/-- Witness for C1 as amended: one well-formed `turn_context` line,
ingested twice at different clock readings. -/
theorem claim_C1_amended_witness :
    (∀ l ∈ (completeAndPending "\x7b\"type\":\"turn_context\"\x7d\n".data).1,
      (trimChars l).isEmpty = false →
      (parseDemo (String.mk (trimChars l))).isOk = true)
    ∧ (extractAll parseDemo dateNormId hashId ⟨"s", "f"⟩
        (poll parseDemo "\x7b\"type\":\"turn_context\"\x7d\n".data 0 (initState "f")
          "T1").events
      = extractAll parseDemo dateNormId hashId ⟨"s", "f"⟩
        (poll parseDemo "\x7b\"type\":\"turn_context\"\x7d\n".data 0 (initState "f")
          "T2").events)
    ∧ ((dedupBatch dedupCapacity ([], [])
        (extractAll parseDemo dateNormId hashId ⟨"s", "f"⟩
          (poll parseDemo "\x7b\"type\":\"turn_context\"\x7d\n".data 0 (initState "f")
            "T1").events
        ++ extractAll parseDemo dateNormId hashId ⟨"s", "f"⟩
          (poll parseDemo "\x7b\"type\":\"turn_context\"\x7d\n".data 0 (initState "f")
            "T2").events)).1
      = (dedupBatch dedupCapacity ([], [])
          (extractAll parseDemo dateNormId hashId ⟨"s", "f"⟩
            (poll parseDemo "\x7b\"type\":\"turn_context\"\x7d\n".data 0 (initState "f")
              "T1").events)).1) :=
  ⟨by decide,
   (claim_C1_amended parseDemo dateNormId hashId "\x7b\"type\":\"turn_context\"\x7d\n".data 0
     "f" "s" "T1" "T2" (by decide)).1,
   (claim_C1_amended parseDemo dateNormId hashId "\x7b\"type\":\"turn_context\"\x7d\n".data 0
     "f" "s" "T1" "T2" (by decide)).2 (by decide)⟩

/-! ### Claim C8 — exit-code markers force severity `error` -/

/-- C8 counterexample: the exit-code scan only runs for the tool name
`shell_command`.  A `function_call_output` for tool `my_tool` whose output
text contains `Exit code: 1` keeps the keyword-derived severity `info` —
the claim's "for every function_call_output record" fails.  (`parseNever`
agrees with `JSON.parse` on the non-JSON text `"Exit code: 1"`.) -/
theorem claim_C8_counterexample :
    findExitDigits "Exit code: 1" = some ['1']
    ∧ (extractShadowEvents parseNever dateNormId hashId ⟨"s", "f"⟩
        ⟨2, .obj [("type", .str "response_item"),
                  ("payload", .obj [("type", .str "function_call_output"),
                                    ("name", .str "my_tool"),
                                    ("call_id", .str "c1"),
                                    ("output", .str "Exit code: 1")])], []⟩).map
        (fun e => (e.severity, e.kind))
      = [(ShadowSeverity.info, ShadowEventKind.TOOL_RESULT)] := by
  exact ⟨rfl, rfl⟩

/-- C8 as amended: for every `function_call_output` record whose tool
*name is `shell_command`* and whose output is a string containing an
exit-code marker with a non-zero code, the single extracted tool-result
event has severity `error`, whatever the keyword heuristics would say. -/
theorem claim_C8_amended (parse : String → Except String Json)
    (dateNorm : String → Option String) (hash : String → String)
    (ctx : ExtractContext) (item : ParsedLineEvent) (p : Json) (out : String)
    (ds : List Char)
    (hty : rawType item.raw = some "response_item")
    (hpl : item.raw.getField "payload" = some p)
    (htr : p.jsTruthy = true)
    (hpt : p.getField "type" = some (.str "function_call_output"))
    (hname : p.getField "name" = some (.str "shell_command"))
    (hout : p.getField "output" = some (.str out))
    (hm : findExitDigits out = some ds)
    (hnz : digitsToNat ds ≠ 0) :
    (extractShadowEvents parse dateNorm hash ctx item).map (fun e => (e.severity, e.kind))
      = [(ShadowSeverity.error, ShadowEventKind.TOOL_RESULT)] := by
  have hpty : payloadOfTyped item.raw "response_item" = some (p, "function_call_output") := by
    simp [payloadOfTyped, hty, hpl, htr, hpt]
  have hptyE : payloadOfTyped item.raw "event_msg" = none := by
    simp [payloadOfTyped, hty]
  rcases hp : parse out with msg | v <;>
    simp [extractShadowEvents, hty, hptyE, hpty, hname, hout, hp, hm, hnz,
      parseToolOutput, coerceString]

/-- Witness for C8 as amended: a shell tool-result whose output embeds
`Exit code: 1`. -/
theorem claim_C8_amended_witness :
    findExitDigits "ok-looking text, Exit code: 1" = some ['1']
    ∧ digitsToNat ['1'] ≠ 0
    ∧ (extractShadowEvents parseNever dateNormId hashId ⟨"s", "f"⟩
        ⟨3, .obj [("type", .str "response_item"),
                  ("payload", .obj [("type", .str "function_call_output"),
                                    ("name", .str "shell_command"),
                                    ("output", .str "ok-looking text, Exit code: 1")])], []⟩).map
        (fun e => (e.severity, e.kind))
      = [(ShadowSeverity.error, ShadowEventKind.TOOL_RESULT)] :=
  ⟨rfl, by decide,
   claim_C8_amended parseNever dateNormId hashId ⟨"s", "f"⟩
     ⟨3, .obj [("type", .str "response_item"),
               ("payload", .obj [("type", .str "function_call_output"),
                                 ("name", .str "shell_command"),
                                 ("output", .str "ok-looking text, Exit code: 1")])], []⟩
     (.obj [("type", .str "function_call_output"),
            ("name", .str "shell_command"),
            ("output", .str "ok-looking text, Exit code: 1")])
     "ok-looking text, Exit code: 1" ['1'] rfl rfl rfl rfl rfl rfl rfl (by decide)⟩

/-! ### Claim C10 — sequence restart on resume from persisted progress -/

theorem joinNL_append (xs ys : List (List Char)) :
    joinNL (xs ++ ys) = joinNL xs ++ joinNL ys := by
  induction xs with
  | nil => rfl
  | cons l rest ih =>
    rw [List.cons_append]
    show l ++ '\n' :: joinNL (rest ++ ys) = (l ++ '\n' :: joinNL rest) ++ joinNL ys
    rw [ih]
    simp

/-- C10 counterexample: when the saved offset is within the 4096-byte
rewind margin the resume state starts at offset 0 *and* sequence 0, so
the re-read records receive exactly the *same* sequence numbers — and
therefore the same event identities — as in the original run, contrary
to the claim's "different from those assigned in the original run"
(indeed this sameness is what makes rewind deduplication work). -/
theorem claim_C10_counterexample :
    (getOrCreateFileState none (some ⟨24, 24, 5⟩) "f").seq = 0
    ∧ (getOrCreateFileState none (some ⟨24, 24, 5⟩) "f").byteOffset = 0
    ∧ (poll parseDemo "\x7b\"type\":\"turn_context\"\x7d\n".data 5
          (getOrCreateFileState none (some ⟨24, 24, 5⟩) "f") "T2").events.map
          (fun r => r.seq)
        = (poll parseDemo "\x7b\"type\":\"turn_context\"\x7d\n".data 5 (initState "f")
            "T1").events.map (fun r => r.seq)
    ∧ (extractAll parseDemo dateNormId hashId ⟨"s", "f"⟩
          (poll parseDemo "\x7b\"type\":\"turn_context\"\x7d\n".data 5
            (getOrCreateFileState none (some ⟨24, 24, 5⟩) "f") "T2").events).map
          (fun e => e.id)
        = (extractAll parseDemo dateNormId hashId ⟨"s", "f"⟩
            (poll parseDemo "\x7b\"type\":\"turn_context\"\x7d\n".data 5 (initState "f")
              "T1").events).map (fun e => e.id)
    ∧ (extractAll parseDemo dateNormId hashId ⟨"s", "f"⟩
          (poll parseDemo "\x7b\"type\":\"turn_context\"\x7d\n".data 5
            (getOrCreateFileState none (some ⟨24, 24, 5⟩) "f") "T2").events).map
          (fun e => e.id) ≠ [] := by
  exact ⟨rfl, by decide, by decide, by decide, by decide⟩

/-- C10 as amended: a resume state built from persisted progress always
restarts the sequence counter at 0 (with byte offset
`max(0, saved` − `4096)`); when the resume offset falls on a line
boundary with `c` records' worth of lines before it, the whole-file
re-read's records are exactly the resumed read's records with every
sequence number shifted up by `c` — so for `c > 0` each re-read record's
sequence number (hence, through `baseId`, its identity) differs from the
one its original-run counterpart carried, while for a resume offset of 0
the re-read reproduces the original sequence numbers exactly. -/
theorem claim_C10_amended (parse : String → Except String Json) (now : String)
    (ls : List (List Char)) (j : Nat) (mt : Int) (path : String)
    (prog : PersistedFileProgress)
    (hfree : ∀ l ∈ ls, ∀ c ∈ l, c ≠ '\n' ∧ c ≠ '\r')
    (hj : j < ls.length)
    (hoff : prog.byteOffset - rewindMargin = (joinNL (ls.take j)).length) :
    (getOrCreateFileState none (some prog) path).seq = 0
    ∧ (getOrCreateFileState none (some prog) path).byteOffset
        = prog.byteOffset - rewindMargin
    ∧ (poll parse (joinNL ls) mt (initState path) now).events
        = (processRecords parse now (ls.take j) 0).1
          ++ ((poll parse (joinNL ls) mt (getOrCreateFileState none (some prog) path)
                now).events.map
              (fun r => ⟨r.seq + (processRecords parse now (ls.take j) 0).2,
                         r.raw, r.rawLine⟩))
    ∧ (0 < (processRecords parse now (ls.take j) 0).2 →
        ∀ r ∈ (poll parse (joinNL ls) mt (getOrCreateFileState none (some prog) path)
              now).events,
          r.seq + (processRecords parse now (ls.take j) 0).2 ≠ r.seq) := by
  have hdropne : ls.drop j ≠ [] := by
    intro hcon
    have hlen := congrArg List.length hcon
    rw [List.length_drop, List.length_nil] at hlen
    omega
  have hlsne : ls ≠ [] := by
    intro hcon
    subst hcon
    simp at hj
  have hfree1 : ∀ l ∈ ls.take j, ∀ c ∈ l, c ≠ '\n' ∧ c ≠ '\r' :=
    fun l hm => hfree l (List.mem_of_mem_take hm)
  have hfree2 : ∀ l ∈ ls.drop j, ∀ c ∈ l, c ≠ '\n' ∧ c ≠ '\r' :=
    fun l hm => hfree l (List.mem_of_mem_drop hm)
  have hjoin : joinNL ls = joinNL (ls.take j) ++ joinNL (ls.drop j) := by
    rw [← joinNL_append, List.take_append_drop]
  have hgrow : (joinNL (ls.take j)).length < (joinNL ls).length := by
    rw [hjoin, List.length_append]
    have := List.length_pos.mpr (joinNL_ne_nil hdropne)
    omega
  have hre : (poll parse (joinNL ls) mt (getOrCreateFileState none (some prog) path)
        now).events
      = (processRecords parse now (ls.drop j) 0).1 := by
    rw [poll_shape parse (joinNL ls) mt (getOrCreateFileState none (some prog) path) now
      (by dsimp only [getOrCreateFileState]; rw [hoff]; exact hgrow)]
    dsimp only [getOrCreateFileState]
    rw [List.nil_append, hoff, hjoin, List.drop_left,
      completeAndPending_joinNL hdropne hfree2]
    dsimp only
    rw [processRecords_blank_tail]
  have hor : (poll parse (joinNL ls) mt (initState path) now).events
      = (processRecords parse now ls 0).1 := by
    rw [poll_init_shape parse (joinNL ls) mt path now (joinNL_ne_nil hlsne)]
    dsimp only
    rw [completeAndPending_joinNL hlsne hfree]
    dsimp only
    rw [processRecords_blank_tail]
  have hsplit : (processRecords parse now ls 0).1
      = (processRecords parse now (ls.take j) 0).1
        ++ (processRecords parse now (ls.drop j)
              ((processRecords parse now (ls.take j) 0).2)).1 := by
    conv_lhs => rw [← List.take_append_drop j ls]
    rw [processRecords_append]
  have hshift1 := (processRecords_shift parse now (ls.drop j) 0
    ((processRecords parse now (ls.take j) 0).2)).1
  rw [Nat.zero_add] at hshift1
  refine ⟨rfl, rfl, ?_, ?_⟩
  · rw [hor, hre, hsplit, hshift1]
  · intro hc r _
    omega

/-- Witness for C10 as amended: two separator-free lines, resume offset
`4104 - 4096 = 8` = the length of the first line plus its newline; the
resumed read assigns the second line sequence 1 (identity
`f:1::turn_context`) where the original run assigned it sequence 2
(identity `f:2::turn_context`). -/
theorem claim_C10_amended_witness :
    ((∀ l ∈ [("\x7b\"a\":1\x7d".data : List Char), "\x7b\"type\":\"turn_context\"\x7d".data],
        ∀ c ∈ l, c ≠ '\n' ∧ c ≠ '\r')
      ∧ 1 < ([("\x7b\"a\":1\x7d".data : List Char),
              "\x7b\"type\":\"turn_context\"\x7d".data] : List (List Char)).length
      ∧ (⟨4104, 33, 0⟩ : PersistedFileProgress).byteOffset - rewindMargin
          = (joinNL ([("\x7b\"a\":1\x7d".data : List Char),
              "\x7b\"type\":\"turn_context\"\x7d".data].take 1)).length)
    ∧ ((getOrCreateFileState none (some ⟨4104, 33, 0⟩) "f").seq = 0
      ∧ (getOrCreateFileState none (some ⟨4104, 33, 0⟩) "f").byteOffset
          = (⟨4104, 33, 0⟩ : PersistedFileProgress).byteOffset - rewindMargin
      ∧ (poll parseDemo
            (joinNL [("\x7b\"a\":1\x7d".data : List Char), "\x7b\"type\":\"turn_context\"\x7d".data])
            0 (initState "f") "T").events
          = (processRecords parseDemo "T"
              ([("\x7b\"a\":1\x7d".data : List Char),
                "\x7b\"type\":\"turn_context\"\x7d".data].take 1) 0).1
            ++ ((poll parseDemo
                  (joinNL [("\x7b\"a\":1\x7d".data : List Char),
                    "\x7b\"type\":\"turn_context\"\x7d".data])
                  0 (getOrCreateFileState none (some ⟨4104, 33, 0⟩) "f") "T").events.map
                (fun r => ⟨r.seq + (processRecords parseDemo "T"
                    ([("\x7b\"a\":1\x7d".data : List Char),
                      "\x7b\"type\":\"turn_context\"\x7d".data].take 1) 0).2,
                  r.raw, r.rawLine⟩))
      ∧ (0 < (processRecords parseDemo "T"
              ([("\x7b\"a\":1\x7d".data : List Char),
                "\x7b\"type\":\"turn_context\"\x7d".data].take 1) 0).2 →
          ∀ r ∈ (poll parseDemo
                (joinNL [("\x7b\"a\":1\x7d".data : List Char),
                  "\x7b\"type\":\"turn_context\"\x7d".data])
                0 (getOrCreateFileState none (some ⟨4104, 33, 0⟩) "f") "T").events,
            r.seq + (processRecords parseDemo "T"
                ([("\x7b\"a\":1\x7d".data : List Char),
                  "\x7b\"type\":\"turn_context\"\x7d".data].take 1) 0).2 ≠ r.seq))
    ∧ ("f:1::turn_context"
        ∈ (extractAll parseDemo dateNormId hashId ⟨"s", "f"⟩
            (poll parseDemo
              (joinNL [("\x7b\"a\":1\x7d".data : List Char),
                "\x7b\"type\":\"turn_context\"\x7d".data])
              0 (getOrCreateFileState none (some ⟨4104, 33, 0⟩) "f") "T").events).map
            (fun e => e.id)
      ∧ "f:1::turn_context"
          ∉ (extractAll parseDemo dateNormId hashId ⟨"s", "f"⟩
              (poll parseDemo
                (joinNL [("\x7b\"a\":1\x7d".data : List Char),
                  "\x7b\"type\":\"turn_context\"\x7d".data])
                0 (initState "f") "T").events).map (fun e => e.id)) :=
  ⟨⟨by decide, by decide, by decide⟩,
   claim_C10_amended parseDemo "T"
     [("\x7b\"a\":1\x7d".data : List Char), "\x7b\"type\":\"turn_context\"\x7d".data] 1 0 "f"
     ⟨4104, 33, 0⟩ (by decide) (by decide) (by decide),
   by decide, by decide⟩

end Shadow
